import Mathlib

/-!
Verification of the 有価証券報告書 markdown normalizer
(`src/lib/normalize/yuho.py`) against its natural-language specification.

The source operates on Python strings line by line.  We shallowly embed it
over `Line := List Char` (one document line, containing no `'\n'`: every
entry point of the module first splits its input into lines) and
`List Line` (a document as its ordered line sequence).  String-level
wrappers rejoin with `'\n'`, exactly as the source does.

Python regular expressions are embedded as executable character-list
matchers.  Each matcher is derived from the concrete pattern in the
source; greedy quantifier semantics coincide with `takeWhile`-maximal
scanning here because in every pattern the repeated character class is
disjoint from the literal that follows it (noted where it matters).
`\s` is embedded as the Unicode whitespace set used by CPython
(`Py_UNICODE_ISSPACE`); `\d` / `str.isdigit` are embedded as the decimal
digits occurring in this document domain (ASCII `0`-`9` and fullwidth
`０`-`９`).
-/

namespace Yuho

/-- A single document line (no `'\n'` inside). -/
abbrev Line := List Char

/-- CPython's Unicode whitespace predicate (`str.isspace`, regex `\s`). -/
def isPySpace (c : Char) : Bool :=
  let n := c.toNat
  (9 ≤ n && n ≤ 13) || (28 ≤ n && n ≤ 31) || n == 32 || n == 0x85 ||
  n == 0xa0 || n == 0x1680 || (0x2000 ≤ n && n ≤ 0x200a) ||
  n == 0x2028 || n == 0x2029 || n == 0x202f || n == 0x205f || n == 0x3000

/-- ASCII decimal digit `0`-`9`. -/
def isAsciiDigit (c : Char) : Bool :=
  '0' ≤ c && c ≤ '9'

/-- Fullwidth decimal digit `０`-`９` (U+FF10 - U+FF19). -/
def isFwDigit (c : Char) : Bool :=
  '０' ≤ c && c ≤ '９'

/-- Fullwidth digit `１`-`９` (U+FF11 - U+FF19), the class `[１-９]`. -/
def isFwDigit19 (c : Char) : Bool :=
  '１' ≤ c && c ≤ '９'

/-- Regex `\d` (and `str.isdigit`) on the repertoire of these documents. -/
def isPyDigit (c : Char) : Bool :=
  isAsciiDigit c || isFwDigit c

/-- CJK numeral `一二三四五六七八九十`, as used by the header patterns. -/
def isKanjiNum (c : Char) : Bool :=
  c == '一' || c == '二' || c == '三' || c == '四' || c == '五' ||
  c == '六' || c == '七' || c == '八' || c == '九' || c == '十'

/-- Circled digit `①`-`⑩` (U+2460 - U+2469), the class `[①-⑩]`. -/
def isCircled (c : Char) : Bool :=
  '①' ≤ c && c ≤ '⑩'

/-- ASCII letter. -/
def isAsciiLetter (c : Char) : Bool :=
  ('A' ≤ c && c ≤ 'Z') || ('a' ≤ c && c ≤ 'z')

/-- The class `[１-９0-9A-Za-z]` used inside parenthesized markers. -/
def isParenAlnum (c : Char) : Bool :=
  isFwDigit19 c || isAsciiDigit c || isAsciiLetter c

/-- The class `[一二三四五六七八九十０-９]` of the PART pattern (the
CHAPTER class `[一二三四五六七八九十０-９１-９]` denotes the same set). -/
def isPartNum (c : Char) : Bool :=
  isKanjiNum c || isFwDigit c

/-- The class `[１-９0-9]` of the SECTION pattern. -/
def isSectionNum (c : Char) : Bool :=
  isFwDigit19 c || isAsciiDigit c

/-- The class `[…．\s]` of the TOC-entry dotted-leader patterns. -/
def isLeader (c : Char) : Bool :=
  c == '…' || c == '．' || isPySpace c

/-- Python `str.strip()`: remove leading and trailing whitespace. -/
def pyStrip (l : Line) : Line :=
  ((l.dropWhile isPySpace).reverse.dropWhile isPySpace).reverse

/-- `xs` begins with the character sequence `pre`. -/
def startsWithSeq : Line → Line → Bool
  | _, [] => true
  | [], _ :: _ => false
  | c :: cs, p :: ps => c == p && startsWithSeq cs ps

/-- Python `sub in s`: `sub` occurs contiguously inside `s`. -/
def hasSub (s sub : Line) : Bool :=
  startsWithSeq s sub ||
    match s with
    | [] => false
    | _ :: cs => hasSub cs sub

/-- Python `text.split(sep)` for a one-character separator: split at every
occurrence, keeping empty fields. -/
def splitOnChar (sep : Char) : Line → List Line
  | [] => [[]]
  | c :: cs =>
    let rest := splitOnChar sep cs
    if c == sep then [] :: rest
    else
      match rest with
      | [] => [[c]]
      | r :: rs => (c :: r) :: rs

/-- Join lines with `'\n'`, Python `"\n".join(lines)`. -/
def joinLines : List Line → Line
  | [] => []
  | [l] => l
  | l :: ls => l ++ '\n' :: joinLines ls

/-- Python `str.splitlines()` for `'\n'`-separated text: like splitting on
`'\n'` but without a trailing empty line, and `[]` on empty input. -/
def splitlinesL (s : List Char) : List Line :=
  match s with
  | [] => []
  | _ =>
    let parts := splitOnChar '\n' s
    if s.getLast? == some '\n' then parts.dropLast else parts

/-- Parse a run of decimal digits (`int(...)` on a `\d+` capture). -/
def digitsToNat (l : Line) : Nat :=
  l.foldl (fun acc c =>
    acc * 10 + (if isAsciiDigit c then c.toNat - '0'.toNat else c.toNat - '０'.toNat)) 0

/-! ### Header pattern matchers (HEADER_PATTERNS, yuho.py lines 33-54)

Each matcher embeds one `re.match` pattern (a prefix match).  In every
pattern the repeated class excludes the literal that follows it, so the
greedy `+` is exactly a maximal `takeWhile` run. -/

/-- `^第[一二三四五六七八九十０-９]+部【` (PART level). -/
def matchPart (l : Line) : Bool :=
  match l with
  | [] => false
  | c :: rest =>
    if c = '第' then
      let run := rest.takeWhile isPartNum
      !run.isEmpty && startsWithSeq (rest.drop run.length) ['部', '【']
    else false

/-- `^第[一二三四五六七八九十０-９１-９]+【` (CHAPTER level). -/
def matchChapter (l : Line) : Bool :=
  match l with
  | [] => false
  | c :: rest =>
    if c = '第' then
      let run := rest.takeWhile isPartNum
      !run.isEmpty && (rest.drop run.length).head? == some '【'
    else false

/-- `^[１-９0-9]+【` (SECTION level). -/
def matchSection (l : Line) : Bool :=
  let run := l.takeWhile isSectionNum
  !run.isEmpty && (l.drop run.length).head? == some '【'

/-- `^(\([１-９0-9A-Za-z]+\)|（[１-９0-9A-Za-z]+）|[①-⑩])` (SUBSECTION level). -/
def matchSubsection (l : Line) : Bool :=
  match l with
  | [] => false
  | c :: rest =>
    if c = '(' then
      let run := rest.takeWhile isParenAlnum
      !run.isEmpty && (rest.drop run.length).head? == some ')'
    else if c = '（' then
      let run := rest.takeWhile isParenAlnum
      !run.isEmpty && (rest.drop run.length).head? == some '）'
    else isCircled c

/-- Data class for header patterns and their properties (yuho.py line 23). -/
structure HeaderPattern where
  pattern : Line → Bool
  level : Nat
  description : String

/-- The ordered header rule table (yuho.py line 33). -/
def HEADER_PATTERNS : List HeaderPattern :=
  [⟨matchPart, 1, "Part level (第一部, 第二部)"⟩,
   ⟨matchChapter, 2, "Chapter level (第１, 第２)"⟩,
   ⟨matchSection, 3, "Section level (１, ２)"⟩,
   ⟨matchSubsection, 4, "Subsection level (parenthetical or circled numbers/letters)"⟩]

/-- `determine_header_level` (yuho.py line 227): first matching pattern's
level as a `#`-marker string, defaulting to level 3. -/
def determine_header_level (header : Line) : Line :=
  match HEADER_PATTERNS.find? (fun p => p.pattern header) with
  | some p => List.replicate p.level '#' ++ [' ']
  | none => ['#', '#', '#', ' ']

/-! ### TOCExtractor (yuho.py lines 97-125) -/

/-- `re.search(r"目\s*次", line)`: the two characters occur with only
whitespace between them (`次` is not whitespace, so the greedy `\s*` is a
maximal run). -/
def searchMokuji : Line → Bool
  | [] => false
  | c :: cs =>
    (c == '目' && (cs.dropWhile isPySpace).head? == some '次') || searchMokuji cs

/-- `TOCExtractor.is_toc_start` (yuho.py line 101). -/
def is_toc_start (l : Line) : Bool :=
  searchMokuji l || pyStrip l == "目次".data

/-- `TOCExtractor.is_toc_entry` (yuho.py line 106): the line matches
`^.+[…．\s]+\d+\s*$`.  Embedded as the existence of a split
`l = a ++ b ++ c ++ d` with `a` nonempty and newline-free (`.+`), `b` a
nonempty leader run (`[…．\s]+`), then (`c` digits and `d` whitespace being
disjoint classes) a nonempty digit run followed by only whitespace.
`i = |a|`, `j = |a| + |b|`. -/
def is_toc_entry (l : Line) : Bool :=
  (List.range (l.length + 1)).any fun i =>
    (List.range (l.length + 1)).any fun j =>
      decide (1 ≤ i) && decide (i < j) && decide (j ≤ l.length) &&
      ((l.take i).all fun c => c != '\n') &&
      (((l.drop i).take (j - i)).all isLeader) &&
      (!((l.drop j).takeWhile isPyDigit).isEmpty) &&
      (((l.drop j).dropWhile isPyDigit).all isPySpace)

/-- Group 1 of `^(第[一二三四五六七八九十０-９]+部【[^】]+】)[…\s]*(\d+)?`
(the trailing `[…\s]*` and optional `(\d+)?` can match empty, so the match
succeeds exactly when the captured prefix shape is present). -/
def capturePart (l : Line) : Option Line :=
  match l with
  | [] => none
  | c :: rest =>
    if c = '第' then
      let run := rest.takeWhile isPartNum
      if run.isEmpty then none
      else
        let r2 := rest.drop run.length
        if r2.take 2 = ['部', '【'] then
          let r3 := r2.drop 2
          let inner := r3.takeWhile (fun ch => ch != '】')
          if inner.isEmpty then none
          else if (r3.drop inner.length).head? == some '】' then
            some ('第' :: run ++ '部' :: '【' :: inner ++ ['】'])
          else none
        else none
    else none

/-- Group 1 of `^(第[一二三四五六七八九十０-９１-９]+【[^】]+】)[…\s]*(\d+)?`. -/
def captureChapter (l : Line) : Option Line :=
  match l with
  | [] => none
  | c :: rest =>
    if c = '第' then
      let run := rest.takeWhile isPartNum
      if run.isEmpty then none
      else
        let r2 := rest.drop run.length
        if r2.take 1 = ['【'] then
          let r3 := r2.drop 1
          let inner := r3.takeWhile (fun ch => ch != '】')
          if inner.isEmpty then none
          else if (r3.drop inner.length).head? == some '】' then
            some ('第' :: run ++ '【' :: inner ++ ['】'])
          else none
        else none
    else none

/-- Group 1 of `^([１-９0-9]+【[^】]+】)[…\s]*(\d+)?`. -/
def captureSection (l : Line) : Option Line :=
  let run := l.takeWhile isSectionNum
  if run.isEmpty then none
  else
    let r2 := l.drop run.length
    if r2.take 1 = ['【'] then
      let r3 := r2.drop 1
      let inner := r3.takeWhile (fun ch => ch != '】')
      if inner.isEmpty then none
      else if (r3.drop inner.length).head? == some '】' then
        some (run ++ '【' :: inner ++ ['】'])
      else none
    else none

/-- The parenthesized-marker alternation
`(\([１-９0-9A-Za-z]+\)|（[１-９0-9A-Za-z]+）)`: returns the marker and the
remainder of the line. -/
def parenMarker2 (l : Line) : Option (Line × Line) :=
  match l with
  | [] => none
  | c :: rest =>
    if c = '(' then
      let run := rest.takeWhile isParenAlnum
      if !run.isEmpty && (rest.drop run.length).head? == some ')' then
        some ('(' :: run ++ [')'], (rest.drop run.length).tail)
      else none
    else if c = '（' then
      let run := rest.takeWhile isParenAlnum
      if !run.isEmpty && (rest.drop run.length).head? == some '）' then
        some ('（' :: run ++ ['）'], (rest.drop run.length).tail)
      else none
    else none

/-- Group 1 of `^(\(..\)|（..）)\s*([^…]+)[…\s]*(\d+)?`: the marker alone.
After the marker, `\s*([^…]+)` succeeds on a nonempty remainder whose
first character is not `…` (whitespace is in `[^…]`, so when the
remainder starts with whitespace the group can begin there). -/
def captureParen (l : Line) : Option Line :=
  match parenMarker2 l with
  | some (m, after) =>
    if !after.isEmpty && after.head? != some '…' then some m else none
  | none => none

/-- `TOCExtractor.extract_header_from_toc` (yuho.py line 111): the four
patterns tried in order, returning the first group-1 capture. -/
def extract_header_from_toc (l : Line) : Option Line :=
  match capturePart l with
  | some h => some h
  | none =>
    match captureChapter l with
    | some h => some h
    | none =>
      match captureSection l with
      | some h => some h
      | none => captureParen l

/-! ### is_header_line and the table fixer (yuho.py lines 57-94, 237-258) -/

/-- The subsection alternation of `is_header_line`
`(\([..]+\)|（[..]+）|[①-⑩])`, returning the marker and the remainder. -/
def subsectionMarker (l : Line) : Option (Line × Line) :=
  match parenMarker2 l with
  | some p => some p
  | none =>
    match l with
    | c :: cs => if isCircled c then some ([c], cs) else none
    | [] => none

/-- `is_header_line` (yuho.py line 237).  The second dotted-leader test in
the source (`re.match(r".+[…．\s]+\d+\s*$", line_stripped)`) re-applies the
`is_toc_entry` pattern to the same stripped line.  In the pattern
`^(..marker..)\s*(.+)$`, group 2 has length `> 2` exactly when the
remainder after the marker, less its maximal whitespace run, is longer
than 2 (an all-whitespace nonempty remainder gives a 1-character group 2
by backtracking, which also fails the `> 2` guard). -/
def is_header_line (l : Line) (toc_headers : List Line) : Option Line :=
  let s := pyStrip l
  if is_toc_entry s then none
  else
    match toc_headers.find? (fun h => s == h) with
    | some h => some h
    | none =>
      if is_toc_entry s then none
      else
        match subsectionMarker s with
        | some (_, after) =>
          if 2 < (after.dropWhile isPySpace).length then some s else none
        | none => none

/-- `^Col\d+$` on a stripped cell. -/
def isColNum (l : Line) : Bool :=
  match l with
  | 'C' :: 'o' :: 'l' :: ds => !ds.isEmpty && ds.all isPyDigit
  | _ => false

/-- `TableFixer.is_malformed_table_header` (yuho.py line 61):
`cells[1]` carries a parenthetical/circled marker and one of
`cells[2:-1]` is a `Col<n>` placeholder.  `len(cells) < 3` is the first
guard, so the shape match below covers all remaining cases. -/
def is_malformed_table_header (cells : List Line) : Bool :=
  match cells with
  | _ :: c1 :: rest =>
    if rest.isEmpty then false
    else
      matchSubsection (pyStrip c1) &&
      (rest.dropLast.any fun c => isColNum (pyStrip c))
  | _ => false

/-- Exactly `n` consecutive `\d` characters. -/
def dExact : Nat → Line → Option (Line × Line)
  | 0, l => some ([], l)
  | _ + 1, [] => none
  | n + 1, c :: cs =>
    if isPyDigit c then (dExact n cs).map (fun p => (c :: p.1, p.2)) else none

/-- `\d{1,2}` followed by the literal `lit` (greedy: two digits first). -/
def d12Lit (lit : Char) (l : Line) : Option (Line × Line) :=
  match l with
  | a :: b :: c :: rest =>
    if isPyDigit a && isPyDigit b && c == lit then some ([a, b], rest)
    else if isPyDigit a && b == lit then some ([a], c :: rest)
    else none
  | [a, b] => if isPyDigit a && b == lit then some ([a], []) else none
  | _ => none

/-- `\d{4}年\d{1,2}月\d{1,2}日現在` anchored at the start of `l`. -/
def matchDateAt (l : Line) : Option Line :=
  match dExact 4 l with
  | none => none
  | some (y, r1) =>
    match r1 with
    | '年' :: r2 =>
      match d12Lit '月' r2 with
      | none => none
      | some (mo, r3) =>
        match d12Lit '日' r3 with
        | none => none
        | some (dd, r4) =>
          if startsWithSeq r4 ['現', '在'] then
            some (y ++ '年' :: mo ++ '月' :: dd ++ '日' :: ['現', '在'])
          else none
    | _ => none

/-- `re.search` for the date pattern: leftmost match. -/
def searchDate : Line → Option Line
  | [] => none
  | c :: cs =>
    match matchDateAt (c :: cs) with
    | some d => some d
    | none => searchDate cs

/-- `TableFixer.extract_date_from_cells` (yuho.py line 76): first date
found in a nonempty stripped cell of `cells[1:]`. -/
def extract_date_from_cells_go : List Line → Option Line
  | [] => none
  | c :: cs =>
    let sc := pyStrip c
    if sc.isEmpty then extract_date_from_cells_go cs
    else
      match searchDate sc with
      | some d => some d
      | none => extract_date_from_cells_go cs

/-- `TableFixer.extract_date_from_cells` (yuho.py line 76). -/
def extract_date_from_cells (cells : List Line) : Option Line :=
  extract_date_from_cells_go (cells.drop 1)

/-- `TableFixer.should_skip_row` (yuho.py line 86): the interior cells
`cells[1:-1]`, stripped and with empties removed, are nonempty and all
equal to `当事業年度`. -/
def should_skip_row (cells : List Line) : Bool :=
  let nonEmpty := ((cells.drop 1).dropLast.map pyStrip).filter (fun c => !c.isEmpty)
  !nonEmpty.isEmpty && nonEmpty.all (fun c => c == "当事業年度".data)

/-- Python `sep.join(parts)` for a one-character separator. -/
def joinWith (sep : Char) : List Line → Line
  | [] => []
  | [l] => l
  | l :: ls => l ++ sep :: joinWith sep ls

/-- `TableFixer.create_separator` (yuho.py line 92):
`"|" + "|".join(["---"] * n) + "|"`. -/
def create_separator (n : Nat) : Line :=
  '|' :: joinWith '|' (List.replicate n ['-', '-', '-']) ++ ['|']

/-- The class `[\s\-:]` of the separator-row pattern. -/
def isSepClass (c : Char) : Bool :=
  isPySpace c || c == '-' || c == ':'

/-- `^\|[\s\-:]+\|` (prefix match: anything may follow). -/
def isSepLine (l : Line) : Bool :=
  match l with
  | '|' :: rest =>
    let run := rest.takeWhile isSepClass
    !run.isEmpty && (rest.drop run.length).head? == some '|'
  | _ => false

/-- `line.startswith("|")`. -/
def isPipe (l : Line) : Bool :=
  l.head? == some '|'

/-- `line.split("|")`. -/
def splitPipe (l : Line) : List Line :=
  splitOnChar '|' l

/-! ### fix_malformed_tables (yuho.py lines 128-199)

The index-driven `while` loop of the source advances by at least one line
per iteration and consults only `lines[i-1]`, `lines[i]` and
`lines[i+1]`.  It is embedded as a structurally recursive transducer with
three modes mirroring the source's control flow:

* `normal prev` — the top of the outer loop; `prev` is `lines[i-1]`
  (`none` at `i = 0`), used only by the duplicate-header guard.
* `skipping` — the inner loop that skips placeholder rows after a
  malformed header and its separator were consumed, followed by the
  first-data-row handling.
* `inTable` — the remaining-rows loop after the true header row.

When the skip loop or the table loop stops on a non-table line, the outer
loop resumes at that line; since a line that does not start with `|`
can never open a malformed block, resuming is the same as emitting the
line and continuing in `normal` mode, which is what the transducer does. -/

inductive FixState where
  | normal (prev : Option Line)
  | skipping
  | inTable

/-- One pass of `fix_malformed_tables` over the line list.  `cells[1]` is
accessed as `getD 1 []`; `is_malformed_table_header` guarantees the index
exists (`fixGoE` below carries the explicit index check and is proved to
agree). -/
def fixGo : FixState → List Line → List Line
  | _, [] => []
  | .normal _, [l] => [l]
  | .normal prev, l :: next :: rest =>
    if isPipe l && isSepLine next then
      let cells := splitPipe l
      if is_malformed_table_header cells then
        let cap := pyStrip (cells.getD 1 [])
        if (match prev with
            | some p => pyStrip p == "#### ".data ++ cap
            | none => false) then
          fixGo (.normal (some next)) rest
        else
          ("#### ".data ++ cap) ::
            ((extract_date_from_cells cells).toList ++ fixGo .skipping rest)
      else l :: fixGo (.normal (some l)) (next :: rest)
    else l :: fixGo (.normal (some l)) (next :: rest)
  | .skipping, l :: ls =>
    if isPipe l && should_skip_row (splitPipe l) then fixGo .skipping ls
    else if isPipe l then
      let sep :=
        match ls.head? with
        | some l2 => if isPipe l2 then [create_separator ((splitPipe l).length - 2)] else []
        | none => []
      l :: (sep ++ fixGo .inTable ls)
    else l :: fixGo (.normal (some l)) ls
  | .inTable, l :: ls =>
    if isPipe l then l :: fixGo .inTable ls
    else l :: fixGo (.normal (some l)) ls

/-- `fix_malformed_tables` (yuho.py line 128), as a line-list transform
(the source splits on `"\n"` and rejoins, which round-trips). -/
def fix_malformed_tables (ls : List Line) : List Line :=
  fixGo (.normal none) ls

/-! ### TOC scanners (yuho.py lines 202-224, 348-386) -/

/-- A line contains one of the three post-TOC section tokens
(yuho.py lines 221, 365). -/
def containsAuditToken (l : Line) : Bool :=
  hasSub l "監査報告書".data || hasSub l "確認書".data ||
    hasSub l "内部統制報告書".data

/-- The scanning loop of `extract_toc_headers` (yuho.py line 202).  On a
successful extraction the source `continue`s, skipping the end-of-TOC
check; only on a failed extraction does a token line reset `in_toc`. -/
def extract_toc_headers_go (in_toc : Bool) : List Line → List Line
  | [] => []
  | l :: ls =>
    if is_toc_start l then extract_toc_headers_go true ls
    else if in_toc then
      match extract_header_from_toc l with
      | some h => h :: extract_toc_headers_go true ls
      | none => extract_toc_headers_go (!containsAuditToken l) ls
    else extract_toc_headers_go false ls

/-- `extract_toc_headers` (yuho.py line 202). -/
def extract_toc_headers (ls : List Line) : List Line :=
  extract_toc_headers_go false ls

/-- Group 1 of `^(.+?)[…．\s]+(\d+)\s*$` given the text `p` preceding the
final digit run (yuho.py line 369).  `[…．\s]+` is a nonempty leader run
ending `p`, and the non-greedy group 1 is everything of `p` before the
maximal such run — except that when that prefix is empty, group 1 is the
run's first character (`.+?` needs at least one character; `.` also
forbids a newline anywhere in group 1). -/
def tocGroup1 (p : Line) : Option Line :=
  let bLen := (p.reverse.takeWhile isLeader).length
  if bLen == 0 then none
  else
    let a := p.take (p.length - bLen)
    let g1 :=
      if a.isEmpty then
        (if 2 ≤ bLen && p.head? != some '\n' then p.take 1 else [])
      else (if a.any (fun ch => ch == '\n') then [] else a)
    if g1.isEmpty then none else some g1

/-- The match of `^(.+?)[…．\s]+(\d+)\s*$` (yuho.py line 369), stripped
group 1 together with the digit string of group 2: with `$` present, the
trailing `\s*` is the maximal whitespace run, `\d+` the maximal digit run
before it (nonempty, digits are not whitespace), and group 1 comes from
`tocGroup1` on the text before the digits. -/
def tocPageMatch (l : Line) : Option (Line × Line) :=
  let r1 := l.reverse.dropWhile isPySpace
  let c := r1.takeWhile isPyDigit
  if c.isEmpty then none
  else
    match tocGroup1 (r1.drop c.length).reverse with
    | some g1 => some (pyStrip g1, c.reverse)
    | none => none

/-- The header-validation pattern of `extract_toc_structure`
(yuho.py line 375):
`^(第[一二三四五六七八九十０-９１-９]+[部【]|[１-９0-9]+【|\(..\)|（..）)`. -/
def validTocHeader (h : Line) : Bool :=
  (match h with
   | '第' :: rest =>
     let run := rest.takeWhile isPartNum
     !run.isEmpty &&
       ((rest.drop run.length).head? == some '部' ||
        (rest.drop run.length).head? == some '【')
   | _ => false) ||
  (let run := h.takeWhile isSectionNum
   !run.isEmpty && (h.drop run.length).head? == some '【') ||
  (parenMarker2 h).isSome

/-- A validated TOC entry of `extract_toc_structure`: the source builds
`header = group(1).strip()` and `page = int(group(2))` and then keeps the
pair only when the header passes validation. -/
def tocPageEntry (l : Line) : Option (Line × Nat) :=
  match tocPageMatch l with
  | some (h, ds) =>
    if validTocHeader h then some (h, digitsToNat ds) else none
  | none => none

/-- The early-exit condition of `extract_toc_structure`
(yuho.py line 382): a page-label line or a PART-1 caption line with no
digit characters at all. -/
def stopCond (l : Line) : Bool :=
  (pyStrip l == "頁".data || pyStrip l == "ページ".data ||
    hasSub l "第一部【企業情報】".data) &&
  !(l.any isPyDigit)

/-- The scanning loop of `extract_toc_structure` (yuho.py line 348).  The
end-of-TOC token check of the source is `pass` — it never changes the
state — so `in_toc` stays true; the entry match is attempted on every
line and the stop condition ends the scan after the current line. -/
def exTSGo (in_toc : Bool) : List Line → List (Line × Nat)
  | [] => []
  | l :: ls =>
    if is_toc_start l then exTSGo true ls
    else if in_toc then
      let rest := if stopCond l then [] else exTSGo true ls
      match tocPageEntry l with
      | some e => e :: rest
      | none => rest
    else exTSGo false ls

/-- `extract_toc_structure` (yuho.py line 348). -/
def extract_toc_structure (ls : List Line) : List (Line × Nat) :=
  exTSGo false ls

/-! ### normalize (yuho.py lines 261-315) -/

/-- The content-start test (yuho.py line 283): the stripped line is the
cover-page marker or matches the PART pattern. -/
def contentTrigger (l : Line) : Bool :=
  pyStrip l == "【表紙】".data || matchPart (pyStrip l)

/-- One `\s*`-then-kanji step of the document-title pattern. -/
def stepKanji (c : Char) (l : Option Line) : Option Line :=
  l.bind fun r =>
    match r.dropWhile isPySpace with
    | x :: xs => if x == c then some xs else none
    | [] => none

/-- `^#*\s*有\s*価\s*証\s*券\s*報\s*告\s*書\s*$` (yuho.py line 297). -/
def matchTitle (l : Line) : Bool :=
  match stepKanji '書' (stepKanji '告' (stepKanji '報' (stepKanji '券'
      (stepKanji '証' (stepKanji '価' (stepKanji '有'
        (some (l.dropWhile (fun c => c == '#'))))))))) with
  | some r => (r.dropWhile isPySpace).isEmpty
  | none => false

/-- Phase 2 of `normalize` (yuho.py lines 277-309): the content walk,
carrying the `content_started` flag and the output accumulator (the
title special case tests `len(normalized_lines) == 0`). -/
def segGo (toc : List Line) (started : Bool) (acc : List Line) :
    List Line → List Line
  | [] => acc
  | l :: ls =>
    let started' := started || contentTrigger l
    if !started' then
      if is_toc_entry l then segGo toc false acc ls
      else segGo toc false (acc ++ [l]) ls
    else
      if matchTitle (pyStrip l) && acc.isEmpty then
        segGo toc true (acc ++ ["# 有価証券報告書".data]) ls
      else
        match is_header_line l toc with
        | some h => segGo toc true (acc ++ [determine_header_level h ++ h]) ls
        | none => segGo toc true (acc ++ [l]) ls

/-- `normalize` (yuho.py line 261) as a line-list transform: TOC headers,
content walk, then the table fixer (the intermediate join on `"\n"` and
re-split of the source round-trips, as no produced line contains a
newline). -/
def normalizeCore (ls : List Line) : List Line :=
  fix_malformed_tables (segGo (extract_toc_headers ls) false [] ls)

/-- `normalize` on strings. -/
def normalize (s : String) : String :=
  ⟨joinLines (normalizeCore (splitlinesL s.data))⟩

/-! ### split_by_headers / find_section (yuho.py lines 318-345, 389-405) -/

/-- Python truthiness of the `current_header` variable (`None` and the
empty string are falsy). -/
def pyTruthy : Option Line → Bool
  | none => false
  | some [] => false
  | some (_ :: _) => true

/-- Python `dict` assignment on an insertion-ordered association list:
update in place if the key exists, else append. -/
def dictSet (d : List (Line × Line)) (k v : Line) : List (Line × Line) :=
  match d with
  | [] => [(k, v)]
  | (k', v') :: rest =>
    if k' == k then (k', v) :: rest else (k', v') :: dictSet rest k v

/-- Python `dict` lookup. -/
def dictGet (d : List (Line × Line)) (k : Line) : Option Line :=
  (d.find? (fun p => p.1 == k)).map (fun p => p.2)

/-- The fold state of `split_by_headers`. -/
structure SplitState where
  cur : Option Line
  content : List Line
  chunks : List (Line × Line)

/-- Saving the previous chunk (`if current_header: chunks[...] = ...`). -/
def saveChunk (st : SplitState) : List (Line × Line) :=
  if pyTruthy st.cur then
    dictSet st.chunks (st.cur.getD []) (pyStrip (joinLines st.content))
  else st.chunks

/-- One line of the `split_by_headers` loop (yuho.py lines 328-339). -/
def splitStep (st : SplitState) (l : Line) : SplitState :=
  if l.head? == some '#' then
    { cur := some (pyStrip (l.dropWhile (fun c => c == '#'))), content := [],
      chunks := saveChunk st }
  else if pyTruthy st.cur then
    { st with content := st.content ++ [l] }
  else st

/-- The `split_by_headers` loop. -/
def splitGo (st : SplitState) : List Line → SplitState
  | [] => st
  | l :: ls => splitGo (splitStep st l) ls

/-- `split_by_headers` (yuho.py line 318), as an insertion-ordered
association list mirroring the Python dict. -/
def split_by_headers (ls : List Line) : List (Line × Line) :=
  saveChunk (splitGo ⟨none, [], []⟩ ls)

/-- `find_section` (yuho.py line 389): exact key match, then first
substring match in insertion order, else empty. -/
def find_section (ls : List Line) (section_name : Line) : Line :=
  let chunks := split_by_headers ls
  match dictGet chunks section_name with
  | some c => c
  | none =>
    match chunks.find? (fun p => hasSub p.1 section_name) with
    | some p => p.2
    | none => []

/-! ### get_section_hierarchy (yuho.py lines 408-454) -/

/-- Number of leading `#` markers. -/
def lineHashCount (l : Line) : Nat :=
  (l.takeWhile (fun c => c == '#')).length

/-- `line.lstrip("#").strip()`. -/
def lineHeaderText (l : Line) : Line :=
  pyStrip (l.dropWhile (fun c => c == '#'))

/-- `hierarchy[header_text] = []` if the key is absent (insertion order). -/
def hierEnsure (d : List (Line × List Line)) (k : Line) :
    List (Line × List Line) :=
  if (d.find? (fun p => p.1 == k)).isSome then d else d ++ [(k, [])]

/-- `hierarchy[parent].append(child)` guarded by `parent in hierarchy`
(a missing key leaves the dict unchanged). -/
def hierAppend (d : List (Line × List Line)) (k c : Line) :
    List (Line × List Line) :=
  match d with
  | [] => []
  | (k', vs) :: rest =>
    if k' == k then (k', vs ++ [c]) :: rest else (k', vs) :: hierAppend rest k c

/-- The fold state of `get_section_hierarchy`: the current header per
level and the hierarchy dict. -/
structure HierState where
  cur : Nat → Option Line
  hier : List (Line × List Line)

/-- One line of the `get_section_hierarchy` loop (yuho.py lines 422-452).
A non-`#` line is skipped; `HeaderLevel(level_count)` succeeds only for
counts 1-4, the `ValueError` of other counts is caught and the line
skipped.  On level `n`: record the header at `n`, clear deeper levels,
ensure the dict key, and append as a child of the tracked `n - 1` header
if one exists. -/
def hierStep (st : HierState) (l : Line) : HierState :=
  if l.head? == some '#' then
    let n := lineHashCount l
    let t := lineHeaderText l
    if 1 ≤ n && n ≤ 4 then
      let cur' : Nat → Option Line :=
        fun k => if k == n then some t else if n < k then none else st.cur k
      let h1 := hierEnsure st.hier t
      let h2 :=
        if 2 ≤ n then
          match st.cur (n - 1) with
          | some p => hierAppend h1 p t
          | none => h1
        else h1
      { cur := cur', hier := h2 }
    else st
  else st

/-- The `get_section_hierarchy` loop. -/
def hierGo (st : HierState) : List Line → HierState
  | [] => st
  | l :: ls => hierGo (hierStep st l) ls

/-- `get_section_hierarchy` (yuho.py line 408), as an insertion-ordered
association list mirroring the Python dict. -/
def get_section_hierarchy (ls : List Line) : List (Line × List Line) :=
  (hierGo ⟨fun _ => none, []⟩ ls).hier

/-! ### Exception-instrumented variants

The source indexes lists (`cells[1]`, via guards) and parses integers
(`int(match.group(2))`).  The variants below model each such primitive as
a fallible operation — `none` standing for an uncaught `IndexError` /
`ValueError` — exactly where the Python expression occurs; the guards of
the source are kept as written.  (`split_by_headers` and
`get_section_hierarchy` contain no fallible primitive: the only
`ValueError` in the source, `HeaderLevel(level_count)`, is caught by its
`try`/`except`, which `hierStep` models with the `1 ≤ n && n ≤ 4` test;
`find_section`'s dict access sits behind an `in` guard, instrumented
below.)  They are proved to agree with the plain embeddings, which
settles that no exception escapes. -/

/-- `int(s)` on a nonempty all-digit string, `none` otherwise
(`ValueError`). -/
def pyIntOpt (l : Line) : Option Nat :=
  if !l.isEmpty && l.all isPyDigit then some (digitsToNat l) else none

/-- `is_malformed_table_header` with the `cells[1]` access instrumented
(the `len(cells) < 3` guard is evaluated first, as in the source). -/
def is_malformed_table_headerE (cells : List Line) : Option Bool :=
  if cells.length < 3 then some false
  else
    match cells.get? 1 with
    | none => none
    | some c1 =>
      some (matchSubsection (pyStrip c1) &&
        ((cells.drop 2).dropLast.any fun c => isColNum (pyStrip c)))

/-- `fixGo` with the `cells[1]` accesses instrumented. -/
def fixGoE : FixState → List Line → Option (List Line)
  | _, [] => some []
  | .normal _, [l] => some [l]
  | .normal prev, l :: next :: rest =>
    if isPipe l && isSepLine next then
      let cells := splitPipe l
      match is_malformed_table_headerE cells with
      | none => none
      | some mal =>
        if mal then
          match cells.get? 1 with
          | none => none
          | some c1 =>
            let cap := pyStrip c1
            if (match prev with
                | some p => pyStrip p == "#### ".data ++ cap
                | none => false) then
              fixGoE (.normal (some next)) rest
            else
              (fixGoE .skipping rest).map (fun out =>
                ("#### ".data ++ cap) ::
                  ((extract_date_from_cells cells).toList ++ out))
        else (fixGoE (.normal (some l)) (next :: rest)).map (fun out => l :: out)
    else (fixGoE (.normal (some l)) (next :: rest)).map (fun out => l :: out)
  | .skipping, l :: ls =>
    if isPipe l && should_skip_row (splitPipe l) then fixGoE .skipping ls
    else if isPipe l then
      let sep :=
        match ls.head? with
        | some l2 => if isPipe l2 then [create_separator ((splitPipe l).length - 2)] else []
        | none => []
      (fixGoE .inTable ls).map (fun out => l :: (sep ++ out))
    else (fixGoE (.normal (some l)) ls).map (fun out => l :: out)
  | .inTable, l :: ls =>
    if isPipe l then (fixGoE .inTable ls).map (fun out => l :: out)
    else (fixGoE (.normal (some l)) ls).map (fun out => l :: out)

/-- `normalize` with the instrumented table fixer. -/
def normalizeE (s : String) : Option String :=
  let ls := splitlinesL s.data
  (fixGoE (.normal none) (segGo (extract_toc_headers ls) false [] ls)).map
    (fun out => ⟨joinLines out⟩)

/-- `tocPageEntry` with `int(match.group(2))` instrumented (the outer
`none` is an uncaught `ValueError`; the source converts the page number
before validating the header). -/
def tocPageEntryE (l : Line) : Option (Option (Line × Nat)) :=
  match tocPageMatch l with
  | some (h, ds) =>
    match pyIntOpt ds with
    | none => none
    | some page => some (if validTocHeader h then some (h, page) else none)
  | none => some none

/-- `exTSGo` with the integer parse instrumented. -/
def exTSGoE (in_toc : Bool) : List Line → Option (List (Line × Nat))
  | [] => some []
  | l :: ls =>
    if is_toc_start l then exTSGoE true ls
    else if in_toc then
      match tocPageEntryE l with
      | none => none
      | some e =>
        (if stopCond l then some [] else exTSGoE true ls).map (fun rest =>
          match e with
          | some e' => e' :: rest
          | none => rest)
    else exTSGoE false ls

/-- `extract_toc_structure` with the integer parse instrumented. -/
def extract_toc_structureE (ls : List Line) : Option (List (Line × Nat)) :=
  exTSGoE false ls

/-- `find_section` with the guarded dict access instrumented. -/
def find_sectionE (ls : List Line) (section_name : Line) : Option Line :=
  let chunks := split_by_headers ls
  if (dictGet chunks section_name).isSome then dictGet chunks section_name
  else
    match chunks.find? (fun p => hasSub p.1 section_name) with
    | some p => some p.2
    | none => some []

/-! ### Additional definitions used by the theorem statements -/

/-- A line matches some header shape of `HEADER_PATTERNS` bare
(without `#` markers). -/
def shapeMatchB (l : Line) : Bool :=
  matchPart l || matchChapter l || matchSection l || matchSubsection l

/-- The effect of phase 2 of `normalize` on a document none of whose
stripped lines matches a bare header shape: TOC-entry lines before the
content boundary are dropped, everything else passes through. -/
def dropPre : List Line → List Line
  | [] => []
  | l :: ls =>
    if contentTrigger l then l :: ls
    else if is_toc_entry l then dropPre ls
    else l :: dropPre ls

/-- The header level of a line as `get_section_hierarchy` decodes it:
`#`-prefixed with a marker count of 1-4 (other counts raise the caught
`ValueError` and are skipped). -/
def lineLevel (l : Line) : Option Nat :=
  if l.head? == some '#' then
    let n := lineHashCount l
    if 1 ≤ n && n ≤ 4 then some n else none
  else none

/-- Position `j` holds a header of level `L - 1` preceding position `i`
with no intervening header line of level `≤ L - 1`. -/
def PrecedingParentPos (ls : List Line) (i L j : Nat) : Prop :=
  j < i ∧ (∃ lj, ls[j]? = some lj ∧ lineLevel lj = some (L - 1)) ∧
  ∀ k lk Lk, j < k → k < i → ls[k]? = some lk → lineLevel lk = some Lk →
    L - 1 < Lk

/-- Invariant of `get_section_hierarchy`'s per-level tracking: text `t`
tracked at level `lv` after scanning the first `m` lines means some
position `j < m` holds a header line of level `lv` and text `t`, with no
later position before `m` holding a header line of level `≤ lv`. -/
def TrackOk (ls : List Line) (m lv : Nat) (t : Line) : Prop :=
  ∃ j lj, j < m ∧ ls[j]? = some lj ∧ lineLevel lj = some lv ∧
    lineHeaderText lj = t ∧
    ∀ k lk Lk, j < k → k < m → ls[k]? = some lk → lineLevel lk = some Lk →
      lv < Lk

/-- Soundness of one recorded parent/child pair with respect to the first
`m` lines: some occurrence of `c` as a header line of level `L` at
position `i < m` has a preceding position `j` holding a level-`L-1`
header line with text `p` and no intervening header of level `≤ L-1`. -/
def GoodChild (ls : List Line) (m : Nat) (p c : Line) : Prop :=
  ∃ i li L, i < m ∧ ls[i]? = some li ∧ lineLevel li = some L ∧
    lineHeaderText li = c ∧
    ∃ j lj, PrecedingParentPos ls i L j ∧ ls[j]? = some lj ∧
      lineHeaderText lj = p

/-- The full loop invariant of `get_section_hierarchy`. -/
def HierInv (ls : List Line) (m : Nat) (st : HierState) : Prop :=
  (∀ lv t, st.cur lv = some t → TrackOk ls m lv t) ∧
  (∀ pr ∈ st.hier, ∀ c ∈ pr.2, GoodChild ls m pr.1 c)

/-! ### Generic list lemmas -/

theorem dropWhile_eq_drop_len_takeWhile (p : Char → Bool) (l : Line) :
    l.dropWhile p = l.drop (l.takeWhile p).length := by
  induction l with
  | nil => rfl
  | cons a l ih =>
    by_cases h : p a = true <;> simp [List.takeWhile_cons, List.dropWhile_cons, h, ih]

theorem takeWhile_append_run (p : Char → Bool) (run tl : Line)
    (h1 : ∀ c ∈ run, p c = true)
    (h2 : ∀ c, tl.head? = some c → p c = false) :
    (run ++ tl).takeWhile p = run := by
  induction run with
  | nil =>
    cases tl with
    | nil => rfl
    | cons c cs => simp [List.takeWhile_cons, h2 c rfl]
  | cons a run ih =>
    have ha : p a = true := h1 a (by simp)
    have ih' := ih (fun c hc => h1 c (by simp [hc]))
    simp [List.takeWhile_cons, ha, ih']

/-! ### Claim C10: the header-level classifier -/

/-- C10: `determine_header_level` evaluates the four rules in the fixed
order PART (level 1), CHAPTER (level 2), SECTION (level 3), SUBSECTION
(level 4), first match winning, and returns the SECTION marker `### `
when no rule matches. -/
theorem determine_header_level_spec (h : Line) :
    determine_header_level h =
      (if matchPart h then "# ".data
       else if matchChapter h then "## ".data
       else if matchSection h then "### ".data
       else if matchSubsection h then "#### ".data
       else "### ".data) := by
  unfold determine_header_level HEADER_PATTERNS
  cases hp : matchPart h <;> cases hc : matchChapter h <;>
    cases hs : matchSection h <;> cases hb : matchSubsection h <;>
      simp [List.find?, hp, hc, hs, hb]

/-! ### Claim C1: Scenario A -/

/-- C1 (counterexample): on Scenario A's input the dotted TOC line
`第一部【企業情報】…1` is NOT dropped — the claim asserts the normalized
output does not contain it.  The line itself matches the PART-caption
pattern, so `content_started` flips on that very line, before the
pre-content TOC-entry drop is consulted, and the line is emitted
unchanged. -/
theorem scenarioA_keeps_dotted_line :
    "第一部【企業情報】…1".data ∈
      normalizeCore ["目次".data, "第一部【企業情報】…1".data, "【表紙】".data,
        "第一部【企業情報】".data] := by decide

/-- C1 (amended): on Scenario A's input, the normalized output contains
the promoted line `# 第一部【企業情報】` and ALSO still contains the
dotted TOC line `第一部【企業情報】…1`, because that dotted line itself
matches the PART-caption pattern and flips the content-start boundary at
that line (so it precedes no boundary and is not dropped). -/
theorem scenarioA_output :
    normalize "目次\n第一部【企業情報】…1\n【表紙】\n第一部【企業情報】\n" =
      "目次\n第一部【企業情報】…1\n【表紙】\n# 第一部【企業情報】" ∧
    "# 第一部【企業情報】".data ∈
      normalizeCore ["目次".data, "第一部【企業情報】…1".data, "【表紙】".data,
        "第一部【企業情報】".data] ∧
    "第一部【企業情報】…1".data ∈
      normalizeCore ["目次".data, "第一部【企業情報】…1".data, "【表紙】".data,
        "第一部【企業情報】".data] := by
  refine ⟨by decide, by decide, by decide⟩

/-! ### Claim C4, C5, C6, C7: concrete counterexamples -/

/-- C4 (counterexample): the claim asserts that after a line containing
one of the three end-of-TOC tokens, no later line (before a new TOC
start) contributes an entry.  In `extract_toc_structure` the token check
is a `pass`: here the line after the bare token line `監査報告書` still
contributes the entry `(１【あ】, 3)`. -/
theorem toc_structure_entry_after_token :
    extract_toc_structure ["目次".data, "監査報告書".data, "１【あ】…3".data] =
      [("１【あ】".data, 3)] ∧
    containsAuditToken "監査報告書".data = true := by
  refine ⟨by decide, by decide⟩

/-- C5 (counterexample): the claim asserts the recorded TocHeader for the
parenthetical pattern includes the caption text following the marker.
On the TOC line `（１）あいう…3` the source records only the marker
`（１）` (group 1), not `（１）あいう`. -/
theorem paren_capture_drops_caption :
    extract_header_from_toc "（１）あいう…3".data = some "（１）".data ∧
    ("（１）".data : Line) ≠ "（１）あいう".data := by
  refine ⟨by decide, by decide⟩

/-- C6 (counterexample): the claim asserts a following table row with
all-empty interior cells is skipped.  `should_skip_row` requires at least
one non-empty interior cell, so the all-empty row `|||` is NOT skipped:
it is emitted (indeed it is taken to be the true header row). -/
theorem empty_interior_row_not_skipped :
    fix_malformed_tables ["|（２）A|Col2|B|".data, "|---|---|".data,
        "|||".data, "|x|y|".data] =
      ["#### （２）A".data, "|||".data, "|---|---|".data, "|x|y|".data] ∧
    should_skip_row (splitPipe "|||".data) = false ∧
    ((splitPipe "|||".data).drop 1).dropLast.all List.isEmpty = true := by
  refine ⟨by decide, by decide, by decide⟩

/-- C7 (counterexample): the claim asserts the true header row is
immediately followed by a synthesized separator.  When no further table
row follows the header row, no separator is emitted: here the output is
just the promoted caption and the header row. -/
theorem no_separator_after_last_header_row :
    fix_malformed_tables ["|（２）A|Col2|B|".data, "|---|---|".data,
        "|h1|h2|".data] =
      ["#### （２）A".data, "|h1|h2|".data] := by decide

/-! ### Claim C3: totality of the exposed operations -/

theorem is_malformedE_eq (cells : List Line) :
    is_malformed_table_headerE cells = some (is_malformed_table_header cells) := by
  match cells with
  | [] => rfl
  | [_] => rfl
  | [_, _] => rfl
  | c0 :: c1 :: c2 :: rest =>
    have h3 : ¬ (c0 :: c1 :: c2 :: rest).length < 3 := by simp
    simp [is_malformed_table_headerE, is_malformed_table_header, h3, List.get?]

theorem malformed_shape (cells : List Line)
    (h : is_malformed_table_header cells = true) :
    ∃ c0 c1 rest, cells = c0 :: c1 :: rest ∧ rest ≠ [] := by
  match cells with
  | [] => simp [is_malformed_table_header] at h
  | [_] => simp [is_malformed_table_header] at h
  | c0 :: c1 :: r :: rest => exact ⟨c0, c1, r :: rest, rfl, by simp⟩

theorem fixGoE_eq : ∀ (s : FixState) (ls : List Line),
    fixGoE s ls = some (fixGo s ls)
  | .normal _, [] => rfl
  | .skipping, [] => rfl
  | .inTable, [] => rfl
  | .normal _, [_] => rfl
  | .normal prev, l :: next :: rest => by
    simp only [fixGoE, fixGo]
    by_cases h1 : (isPipe l && isSepLine next) = true
    · simp only [h1, if_true, is_malformedE_eq (splitPipe l)]
      by_cases hm : is_malformed_table_header (splitPipe l) = true
      · obtain ⟨c0, c1, rest', heq, -⟩ := malformed_shape _ hm
        rw [heq] at hm ⊢
        simp only [hm, if_true, List.get?]
        have hgd : (c0 :: c1 :: rest').getD 1 [] = c1 := rfl
        rw [hgd]
        by_cases hd : (match prev with
            | some p => pyStrip p == "#### ".data ++ pyStrip c1
            | none => false) = true
        · simp only [hd, if_true, fixGoE_eq (.normal (some next)) rest]
        · rw [eq_false_of_ne_true hd]
          simp [fixGoE_eq .skipping rest]
      · rw [eq_false_of_ne_true hm]
        simp only [Bool.false_eq_true, if_false,
          fixGoE_eq (.normal (some l)) (next :: rest), Option.map_some']
    · rw [eq_false_of_ne_true h1]
      simp only [Bool.false_eq_true, if_false,
        fixGoE_eq (.normal (some l)) (next :: rest), Option.map_some']
  | .skipping, l :: ls => by
    simp only [fixGoE, fixGo]
    by_cases h1 : (isPipe l && should_skip_row (splitPipe l)) = true
    · simp only [h1, if_true, fixGoE_eq .skipping ls]
    · rw [eq_false_of_ne_true h1]
      by_cases h2 : isPipe l = true
      · simp only [Bool.false_eq_true, if_false, h2, if_true,
          fixGoE_eq .inTable ls, Option.map_some']
      · rw [eq_false_of_ne_true h2]
        simp only [Bool.false_eq_true, if_false,
          fixGoE_eq (.normal (some l)) ls, Option.map_some']
  | .inTable, l :: ls => by
    simp only [fixGoE, fixGo]
    by_cases h2 : isPipe l = true
    · simp only [h2, if_true, fixGoE_eq .inTable ls, Option.map_some']
    · rw [eq_false_of_ne_true h2]
      simp only [Bool.false_eq_true, if_false,
        fixGoE_eq (.normal (some l)) ls, Option.map_some']

theorem pyIntOpt_of_digits (d : Line) (hne : d.isEmpty = false)
    (hall : ∀ c ∈ d, isPyDigit c = true) :
    pyIntOpt d = some (digitsToNat d) := by
  have hcond : (!d.isEmpty && d.all isPyDigit) = true := by
    simp only [hne, Bool.not_false, Bool.true_and, List.all_eq_true]
    exact hall
  unfold pyIntOpt
  rw [if_pos hcond]

theorem tocPageMatch_digits (l h ds : Line)
    (hm : tocPageMatch l = some (h, ds)) :
    ds.isEmpty = false ∧ ∀ c ∈ ds, isPyDigit c = true := by
  simp only [tocPageMatch] at hm
  split at hm
  next => simp at hm
  next hcne =>
    split at hm
    next g1 heq =>
      have hds : ((l.reverse.dropWhile isPySpace).takeWhile isPyDigit).reverse = ds := by
        injection hm with hpair
        exact congrArg Prod.snd hpair
      subst hds
      refine ⟨by simpa using hcne, ?_⟩
      intro c hc
      exact List.mem_takeWhile_imp (List.mem_reverse.mp hc)
    next => simp at hm

theorem tocPageEntryE_eq (l : Line) : tocPageEntryE l = some (tocPageEntry l) := by
  match hm : tocPageMatch l with
  | none => simp [tocPageEntryE, tocPageEntry, hm]
  | some (h, ds) =>
    obtain ⟨h1, h2⟩ := tocPageMatch_digits l h ds hm
    simp [tocPageEntryE, tocPageEntry, hm, pyIntOpt_of_digits ds h1 h2]

theorem exTSGoE_eq : ∀ (b : Bool) (ls : List Line),
    exTSGoE b ls = some (exTSGo b ls)
  | _, [] => rfl
  | b, l :: ls => by
    simp only [exTSGoE, exTSGo]
    by_cases hts : is_toc_start l = true
    · simp [hts, exTSGoE_eq true ls]
    · rw [eq_false_of_ne_true hts]
      cases b with
      | false => simp [exTSGoE_eq false ls]
      | true =>
        simp only [Bool.false_eq_true, if_false, if_true, tocPageEntryE_eq l]
        by_cases hst : stopCond l = true
        · simp only [hst, if_true]
          cases tocPageEntry l <;> simp
        · rw [eq_false_of_ne_true hst]
          simp only [Bool.false_eq_true, if_false, exTSGoE_eq true ls,
            Option.map_some']
          cases tocPageEntry l <;> simp

theorem find_sectionE_eq (ls : List Line) (name : Line) :
    find_sectionE ls name = some (find_section ls name) := by
  simp only [find_sectionE, find_section]
  match hg : dictGet (split_by_headers ls) name with
  | some v => simp [hg]
  | none =>
    simp only [hg, Option.isSome_none, Bool.false_eq_true, if_false]
    cases List.find? (fun p => hasSub p.1 name) (split_by_headers ls) <;> simp

/-- C3: the five exposed operations are total over arbitrary string
input — no exception escapes.  The instrumented variants, in which every
fallible primitive of the source (`cells[1]` list indexing in the
table-repair path, `int(match.group(2))` in TOC-structure extraction,
and the guarded dict access of `find_section`) returns `none` on failure,
agree with the plain embeddings on every input: each guard in the source
really protects its access.  `split_by_headers` and
`get_section_hierarchy` contain no fallible primitive at all — the
`HeaderLevel(level_count)` `ValueError` is caught in the source, modeled
by `hierStep`'s level test — so all five operations return a value on
every string. -/
theorem operations_total :
    (∀ s : String, normalizeE s = some (normalize s)) ∧
    (∀ ls : List Line, extract_toc_structureE ls = some (extract_toc_structure ls)) ∧
    (∀ (ls : List Line) (name : Line), find_sectionE ls name = some (find_section ls name)) := by
  refine ⟨fun s => ?_, fun ls => exTSGoE_eq false ls, find_sectionE_eq⟩
  simp only [normalizeE, normalize, normalizeCore, fix_malformed_tables, fixGoE_eq,
    Option.map_some']

theorem rest_takeWhile_decomp (p : Char → Bool) (rest : Line) :
    rest.takeWhile p ++ rest.drop (rest.takeWhile p).length = rest := by
  rw [← dropWhile_eq_drop_len_takeWhile]
  exact List.takeWhile_append_dropWhile p rest

theorem head_drop_decomp (l : Line) (c : Char) (n : Nat)
    (h : (l.drop n).head? = some c) : ∃ t, l.drop n = c :: t := by
  cases hh : l.drop n with
  | nil => rw [hh] at h; simp at h
  | cons x xs =>
    rw [hh] at h
    simp only [List.head?_cons, Option.some_inj] at h
    exact ⟨xs, by rw [h]⟩

theorem matchPart_cons (c : Char) (rest : Line) :
    matchPart (c :: rest) =
      if c = '第' then
        !(rest.takeWhile isPartNum).isEmpty &&
          startsWithSeq (rest.drop (rest.takeWhile isPartNum).length) ['部', '【']
      else false := rfl

theorem matchPart_of_build (run tl : Line) (hne : run.isEmpty = false)
    (hmem : ∀ x ∈ run, isPartNum x = true) :
    matchPart ('第' :: (run ++ '部' :: '【' :: tl)) = true := by
  rw [matchPart_cons, if_pos rfl]
  have htw : (run ++ '部' :: '【' :: tl).takeWhile isPartNum = run := by
    apply takeWhile_append_run _ _ _ hmem
    intro x hx
    simp only [List.head?_cons, Option.some_inj] at hx
    subst hx
    decide
  rw [htw, List.drop_left]
  simp [hne, startsWithSeq]

theorem capturePart_spec (l h : Line) (hc : capturePart l = some h) :
    (∃ r, l = h ++ r) ∧ h.getLast? = some '】' ∧ matchPart h = true := by
  match l with
  | [] => simp [capturePart] at hc
  | c :: rest =>
    simp only [capturePart] at hc
    split at hc
    case isFalse => simp at hc
    case isTrue hcc =>
      subst hcc
      split at hc
      case isTrue => simp at hc
      case isFalse hrun =>
        split at hc
        case isFalse => simp at hc
        case isTrue htk =>
          split at hc
          case isTrue => simp at hc
          case isFalse hinner =>
            split at hc
            case isFalse => simp at hc
            case isTrue hbr =>
              simp only [Option.some_inj] at hc
              subst hc
              set run := rest.takeWhile isPartNum with hrundef
              set r2 := rest.drop run.length with hr2def
              set r3 := r2.drop 2 with hr3def
              set inner := r3.takeWhile (fun ch => ch != '】') with hinnerdef
              obtain ⟨t, ht⟩ := head_drop_decomp r3 '】' inner.length (by simpa using hbr)
              have hrest : run ++ r2 = rest := rest_takeWhile_decomp isPartNum rest
              have hr2 : r2 = '部' :: '【' :: r3 := by
                conv_lhs => rw [← List.take_append_drop 2 r2]
                rw [htk, hr3def]
                rfl
              have hr3 : r3 = inner ++ '】' :: t := by
                have hd := rest_takeWhile_decomp (fun ch => ch != '】') r3
                rw [← hinnerdef] at hd
                rw [← hd, ht]
              have hne : run.isEmpty = false := by
                revert hrun; cases run <;> simp
              have hmem : ∀ x ∈ run, isPartNum x = true :=
                fun x hx => List.mem_takeWhile_imp (hrundef ▸ hx)
              refine ⟨⟨t, ?_⟩, ?_, ?_⟩
              · rw [← hrest, hr2, hr3]
                simp
              · have hform : '第' :: run ++ '部' :: '【' :: inner ++ ['】'] =
                    ('第' :: (run ++ '部' :: '【' :: inner)) ++ ['】'] := by
                  simp
                rw [hform, List.getLast?_concat]
              · simpa using matchPart_of_build run (inner ++ ['】']) hne hmem

theorem matchChapter_cons (c : Char) (rest : Line) :
    matchChapter (c :: rest) =
      if c = '第' then
        !(rest.takeWhile isPartNum).isEmpty &&
          (rest.drop (rest.takeWhile isPartNum).length).head? == some '【'
      else false := rfl

theorem matchChapter_of_build (run tl : Line) (hne : run.isEmpty = false)
    (hmem : ∀ x ∈ run, isPartNum x = true) :
    matchChapter ('第' :: (run ++ '【' :: tl)) = true := by
  rw [matchChapter_cons, if_pos rfl]
  have htw : (run ++ '【' :: tl).takeWhile isPartNum = run := by
    apply takeWhile_append_run _ _ _ hmem
    intro x hx
    simp only [List.head?_cons, Option.some_inj] at hx
    subst hx
    decide
  rw [htw, List.drop_left]
  simp [hne]

theorem captureChapter_spec (l h : Line) (hc : captureChapter l = some h) :
    (∃ r, l = h ++ r) ∧ h.getLast? = some '】' ∧ matchChapter h = true := by
  match l with
  | [] => simp [captureChapter] at hc
  | c :: rest =>
    simp only [captureChapter] at hc
    split at hc
    case isFalse => simp at hc
    case isTrue hcc =>
      subst hcc
      split at hc
      case isTrue => simp at hc
      case isFalse hrun =>
        split at hc
        case isFalse => simp at hc
        case isTrue htk =>
          split at hc
          case isTrue => simp at hc
          case isFalse hinner =>
            split at hc
            case isFalse => simp at hc
            case isTrue hbr =>
              simp only [Option.some_inj] at hc
              subst hc
              set run := rest.takeWhile isPartNum with hrundef
              set r2 := rest.drop run.length with hr2def
              set r3 := r2.drop 1 with hr3def
              set inner := r3.takeWhile (fun ch => ch != '】') with hinnerdef
              obtain ⟨t, ht⟩ := head_drop_decomp r3 '】' inner.length (by simpa using hbr)
              have hrest : run ++ r2 = rest := rest_takeWhile_decomp isPartNum rest
              have hr2 : r2 = '【' :: r3 := by
                conv_lhs => rw [← List.take_append_drop 1 r2]
                rw [htk, hr3def]
                rfl
              have hr3 : r3 = inner ++ '】' :: t := by
                have hd := rest_takeWhile_decomp (fun ch => ch != '】') r3
                rw [← hinnerdef] at hd
                rw [← hd, ht]
              have hne : run.isEmpty = false := by
                revert hrun; cases run <;> simp
              have hmem : ∀ x ∈ run, isPartNum x = true :=
                fun x hx => List.mem_takeWhile_imp (hrundef ▸ hx)
              refine ⟨⟨t, ?_⟩, ?_, ?_⟩
              · rw [← hrest, hr2, hr3]
                simp
              · have hform : '第' :: run ++ '【' :: inner ++ ['】'] =
                    ('第' :: (run ++ '【' :: inner)) ++ ['】'] := by
                  simp
                rw [hform, List.getLast?_concat]
              · simpa using matchChapter_of_build run (inner ++ ['】']) hne hmem

theorem matchSection_of_build (run tl : Line) (hne : run.isEmpty = false)
    (hmem : ∀ x ∈ run, isSectionNum x = true) :
    matchSection (run ++ '【' :: tl) = true := by
  have htw : (run ++ '【' :: tl).takeWhile isSectionNum = run := by
    apply takeWhile_append_run _ _ _ hmem
    intro x hx
    simp only [List.head?_cons, Option.some_inj] at hx
    subst hx
    decide
  simp only [matchSection, htw, List.drop_left, hne]
  simp

theorem captureSection_spec (l h : Line) (hc : captureSection l = some h) :
    (∃ r, l = h ++ r) ∧ h.getLast? = some '】' ∧ matchSection h = true := by
  simp only [captureSection] at hc
  split at hc
  case isTrue => simp at hc
  case isFalse hrun =>
    split at hc
    case isFalse => simp at hc
    case isTrue htk =>
      split at hc
      case isTrue => simp at hc
      case isFalse hinner =>
        split at hc
        case isFalse => simp at hc
        case isTrue hbr =>
          simp only [Option.some_inj] at hc
          subst hc
          set run := l.takeWhile isSectionNum with hrundef
          set r2 := l.drop run.length with hr2def
          set r3 := r2.drop 1 with hr3def
          set inner := r3.takeWhile (fun ch => ch != '】') with hinnerdef
          obtain ⟨t, ht⟩ := head_drop_decomp r3 '】' inner.length (by simpa using hbr)
          have hrest : run ++ r2 = l := rest_takeWhile_decomp isSectionNum l
          have hr2 : r2 = '【' :: r3 := by
            conv_lhs => rw [← List.take_append_drop 1 r2]
            rw [htk, hr3def]
            rfl
          have hr3 : r3 = inner ++ '】' :: t := by
            have hd := rest_takeWhile_decomp (fun ch => ch != '】') r3
            rw [← hinnerdef] at hd
            rw [← hd, ht]
          have hne : run.isEmpty = false := by
            revert hrun; cases run <;> simp
          have hmem : ∀ x ∈ run, isSectionNum x = true :=
            fun x hx => List.mem_takeWhile_imp (hrundef ▸ hx)
          refine ⟨⟨t, ?_⟩, ?_, ?_⟩
          · rw [← hrest, hr2, hr3]
            simp
          · have hform : run ++ '【' :: inner ++ ['】'] =
                (run ++ '【' :: inner) ++ ['】'] := by
              simp
            rw [hform, List.getLast?_concat]
          · simpa using matchSection_of_build run (inner ++ ['】']) hne hmem

theorem matchSubsection_cons (c : Char) (rest : Line) :
    matchSubsection (c :: rest) =
      (if c = '(' then
        !(rest.takeWhile isParenAlnum).isEmpty &&
          (rest.drop (rest.takeWhile isParenAlnum).length).head? == some ')'
      else if c = '（' then
        !(rest.takeWhile isParenAlnum).isEmpty &&
          (rest.drop (rest.takeWhile isParenAlnum).length).head? == some '）'
      else isCircled c) := rfl

theorem matchSubsection_of_build_ascii (run tl : Line) (hne : run.isEmpty = false)
    (hmem : ∀ x ∈ run, isParenAlnum x = true) :
    matchSubsection ('(' :: (run ++ ')' :: tl)) = true := by
  rw [matchSubsection_cons, if_pos rfl]
  have htw : (run ++ ')' :: tl).takeWhile isParenAlnum = run := by
    apply takeWhile_append_run _ _ _ hmem
    intro x hx
    simp only [List.head?_cons, Option.some_inj] at hx
    subst hx
    decide
  rw [htw, List.drop_left]
  simp [hne]

theorem matchSubsection_of_build_fw (run tl : Line) (hne : run.isEmpty = false)
    (hmem : ∀ x ∈ run, isParenAlnum x = true) :
    matchSubsection ('（' :: (run ++ '）' :: tl)) = true := by
  rw [matchSubsection_cons, if_neg (by decide), if_pos rfl]
  have htw : (run ++ '）' :: tl).takeWhile isParenAlnum = run := by
    apply takeWhile_append_run _ _ _ hmem
    intro x hx
    simp only [List.head?_cons, Option.some_inj] at hx
    subst hx
    decide
  rw [htw, List.drop_left]
  simp [hne]

theorem parenMarker2_spec (l m after : Line)
    (hc : parenMarker2 l = some (m, after)) :
    l = m ++ after ∧ matchSubsection m = true ∧ matchSubsection l = true := by
  match l with
  | [] => simp [parenMarker2] at hc
  | c :: rest =>
    simp only [parenMarker2] at hc
    split at hc
    case isTrue hcc =>
      subst hcc
      split at hc
      case isFalse => simp at hc
      case isTrue hcond =>
        simp only [Option.some_inj, Prod.mk.injEq] at hc
        obtain ⟨hm, hafter⟩ := hc
        set run := rest.takeWhile isParenAlnum with hrundef
        rw [Bool.and_eq_true] at hcond
        obtain ⟨hne', hhd⟩ := hcond
        obtain ⟨t, ht⟩ := head_drop_decomp rest ')' run.length (by simpa using hhd)
        have hrest : run ++ rest.drop run.length = rest :=
          rest_takeWhile_decomp isParenAlnum rest
        have hne : run.isEmpty = false := by
          revert hne'; cases run <;> simp
        have hmem : ∀ x ∈ run, isParenAlnum x = true :=
          fun x hx => List.mem_takeWhile_imp (hrundef ▸ hx)
        have hafter2 : after = t := by rw [← hafter, ht]; rfl
        subst hafter2
        subst hm
        refine ⟨?_, ?_, ?_⟩
        · rw [← hrest, ht]
          simp
        · simpa using matchSubsection_of_build_ascii run [] hne hmem
        · rw [← hrest, ht]
          simpa using matchSubsection_of_build_ascii run after hne hmem
    case isFalse hcc =>
      split at hc
      case isFalse => simp at hc
      case isTrue hcc2 =>
        subst hcc2
        split at hc
        case isFalse => simp at hc
        case isTrue hcond =>
          simp only [Option.some_inj, Prod.mk.injEq] at hc
          obtain ⟨hm, hafter⟩ := hc
          set run := rest.takeWhile isParenAlnum with hrundef
          rw [Bool.and_eq_true] at hcond
          obtain ⟨hne', hhd⟩ := hcond
          obtain ⟨t, ht⟩ := head_drop_decomp rest '）' run.length (by simpa using hhd)
          have hrest : run ++ rest.drop run.length = rest :=
            rest_takeWhile_decomp isParenAlnum rest
          have hne : run.isEmpty = false := by
            revert hne'; cases run <;> simp
          have hmem : ∀ x ∈ run, isParenAlnum x = true :=
            fun x hx => List.mem_takeWhile_imp (hrundef ▸ hx)
          have hafter2 : after = t := by rw [← hafter, ht]; rfl
          subst hafter2
          subst hm
          refine ⟨?_, ?_, ?_⟩
          · rw [← hrest, ht]
            simp
          · simpa using matchSubsection_of_build_fw run [] hne hmem
          · rw [← hrest, ht]
            simpa using matchSubsection_of_build_fw run after hne hmem

theorem captureParen_spec (l h : Line) (hc : captureParen l = some h) :
    ∃ after, parenMarker2 l = some (h, after) ∧ after ≠ [] ∧
      after.head? ≠ some '…' ∧ l = h ++ after ∧ matchSubsection h = true := by
  simp only [captureParen] at hc
  split at hc
  case h_2 => simp at hc
  case h_1 m after hpm =>
    split at hc
    case isFalse => simp at hc
    case isTrue hcond =>
      simp only [Option.some_inj] at hc
      subst hc
      rw [Bool.and_eq_true] at hcond
      obtain ⟨hne, hhd⟩ := hcond
      obtain ⟨heq, hmk, -⟩ := parenMarker2_spec l m after hpm
      refine ⟨after, hpm, ?_, ?_, heq, hmk⟩
      · revert hne; cases after <;> simp
      · intro hcontra
        rw [hcontra] at hhd
        simp at hhd

theorem subsectionMarker_shape (l : Line) (pr : Line × Line)
    (h : subsectionMarker l = some pr) : matchSubsection l = true := by
  match hp : parenMarker2 l with
  | some p => exact (parenMarker2_spec l p.1 p.2 hp).2.2
  | none =>
    match l with
    | [] => simp [subsectionMarker, hp] at h
    | c :: cs =>
      simp only [subsectionMarker, hp] at h
      split at h
      case isTrue hcirc =>
        by_cases hc1 : c = '('
        · subst hc1; exact absurd hcirc (by decide)
        · by_cases hc2 : c = '（'
          · subst hc2; exact absurd hcirc (by decide)
          · rw [matchSubsection_cons, if_neg hc1, if_neg hc2]
            exact hcirc
      case isFalse => simp at h

theorem extract_header_shape (l h : Line)
    (hc : extract_header_from_toc l = some h) : shapeMatchB h = true := by
  unfold extract_header_from_toc at hc
  split at hc
  next h1 hp =>
    simp only [Option.some_inj] at hc
    subst hc
    simp [shapeMatchB, (capturePart_spec l _ hp).2.2]
  next hp =>
    split at hc
    next h1 hp2 =>
      simp only [Option.some_inj] at hc
      subst hc
      simp [shapeMatchB, (captureChapter_spec l _ hp2).2.2]
    next hp2 =>
      split at hc
      next h1 hp3 =>
        simp only [Option.some_inj] at hc
        subst hc
        simp [shapeMatchB, (captureSection_spec l _ hp3).2.2]
      next hp3 =>
        obtain ⟨after, -, -, -, -, hm⟩ := captureParen_spec l h hc
        simp [shapeMatchB, hm]

theorem toc_headers_go_shape : ∀ (b : Bool) (ls : List Line) (h : Line),
    h ∈ extract_toc_headers_go b ls → shapeMatchB h = true
  | _, [], h => by simp [extract_toc_headers_go]
  | b, l :: ls, h => by
    simp only [extract_toc_headers_go]
    by_cases h1 : is_toc_start l = true
    · simp only [h1, if_true]
      exact toc_headers_go_shape true ls h
    · rw [eq_false_of_ne_true h1]
      simp only [Bool.false_eq_true, if_false]
      cases b with
      | false =>
        simp only [Bool.false_eq_true, if_false]
        exact toc_headers_go_shape false ls h
      | true =>
        simp only [if_true]
        match hx : extract_header_from_toc l with
        | some hh =>
          intro hmem
          rcases List.mem_cons.mp hmem with rfl | hmem2
          · exact extract_header_shape l h hx
          · exact toc_headers_go_shape true ls h hmem2
        | none => exact toc_headers_go_shape _ ls h

theorem toc_headers_shape (ls : List Line) (h : Line)
    (hm : h ∈ extract_toc_headers ls) : shapeMatchB h = true :=
  toc_headers_go_shape false ls h hm

theorem is_header_line_none (l : Line) (toc : List Line)
    (htoc : ∀ h ∈ toc, shapeMatchB h = true)
    (hfree : shapeMatchB (pyStrip l) = false) :
    is_header_line l toc = none := by
  have hfind : toc.find? (fun h => pyStrip l == h) = none := by
    apply List.find?_eq_none.mpr
    intro h hmem
    simp only [beq_iff_eq]
    intro hbeq
    have hsh := htoc h hmem
    rw [← hbeq] at hsh
    rw [hsh] at hfree
    simp at hfree
  have hsub4 : matchSubsection (pyStrip l) = false := by
    have h4 := hfree
    unfold shapeMatchB at h4
    simp only [Bool.or_eq_false_iff] at h4
    exact h4.2
  have hsm : subsectionMarker (pyStrip l) = none := by
    cases hsm' : subsectionMarker (pyStrip l) with
    | none => rfl
    | some pr =>
      rw [subsectionMarker_shape _ pr hsm'] at hsub4
      exact absurd hsub4 (by simp)
  by_cases he : is_toc_entry (pyStrip l) = true
  · simp [is_header_line, he]
  · simp [is_header_line, he, hfind, hsm]

theorem extract_toc_headers_go_false : ∀ (ls : List Line),
    (∀ l ∈ ls, is_toc_start l = false) → extract_toc_headers_go false ls = []
  | [], _ => rfl
  | l :: ls, h => by
    simp only [extract_toc_headers_go, h l (by simp), Bool.false_eq_true, if_false]
    exact extract_toc_headers_go_false ls (fun x hx => h x (by simp [hx]))

/-- C4 (amended): end-of-TOC token handling as the source implements it.
In the canonical-header variant (`extract_toc_headers`), a line containing
one of the three tokens resets the state to OUTSIDE_TOC only when entry
extraction on that same line FAILS (a successful extraction `continue`s
past the check), and once outside no line contributes until the next TOC
start.  In the `(header, page)` variant (`extract_toc_structure`), the
token check in the source is `pass` — it causes no transition at all: the
scan of a token line appends its entry (if any) and continues in state
IN_TOC, subject only to the separate early-exit condition. -/
theorem audit_token_transition :
    (∀ (l : Line) (ls : List Line), is_toc_start l = false →
      extract_header_from_toc l = none → containsAuditToken l = true →
      extract_toc_headers_go true (l :: ls) = extract_toc_headers_go false ls) ∧
    (∀ ls : List Line, (∀ l ∈ ls, is_toc_start l = false) →
      extract_toc_headers_go false ls = []) ∧
    (∀ (l : Line) (ls : List Line), is_toc_start l = false →
      containsAuditToken l = true → stopCond l = false →
      exTSGo true (l :: ls) =
        (match tocPageEntry l with
         | some e => e :: exTSGo true ls
         | none => exTSGo true ls)) := by
  refine ⟨fun l ls hts hex haud => ?_, extract_toc_headers_go_false,
    fun l ls hts haud hstop => ?_⟩
  · simp [extract_toc_headers_go, hts, hex, haud]
  · simp only [exTSGo, hts, Bool.false_eq_true, if_false, if_true, hstop]

/-- C4 (witness): concrete runs of both conjuncts.  In the canonical
variant the bare token line `監査報告書` (no extractable entry) ends the
TOC; in the `(header, page)` variant the token line `１【監査報告書】…45`
itself contributes an entry and scanning continues, so the next line
contributes as well. -/
theorem audit_token_transition_witness :
    extract_toc_headers_go true ["監査報告書".data, "あいう".data] = [] ∧
    exTSGo true ["１【監査報告書】…45".data, "２【あ】…46".data] =
      [("１【監査報告書】".data, 45), ("２【あ】".data, 46)] :=
  ⟨(audit_token_transition.1 "監査報告書".data ["あいう".data]
      (by decide) (by decide) (by decide)).trans
    (audit_token_transition.2.1 ["あいう".data] (by decide)),
   (audit_token_transition.2.2 "１【監査報告書】…45".data ["２【あ】…46".data]
      (by decide) (by decide) (by decide)).trans (by decide)⟩

/-- C5 (amended): what `extract_header_from_toc` records, by the four
prioritized patterns.  For the PART, CHAPTER and SECTION patterns the
recorded TocHeader is the full bracketed caption — a prefix of the line
ending at the closing bracket `】`, i.e. the header text preceding the
dotted leader and page number.  For the parenthetical pattern the
recorded TocHeader is ONLY the parenthesized marker (regex group 1): the
caption text following the marker (`after`, nonempty and not starting
with the leader `…`) is NOT part of the recorded header. -/
theorem extract_header_from_toc_spec :
    (∀ l h, capturePart l = some h →
      extract_header_from_toc l = some h ∧ (∃ r, l = h ++ r) ∧
        h.getLast? = some '】') ∧
    (∀ l h, capturePart l = none → captureChapter l = some h →
      extract_header_from_toc l = some h ∧ (∃ r, l = h ++ r) ∧
        h.getLast? = some '】') ∧
    (∀ l h, capturePart l = none → captureChapter l = none →
      captureSection l = some h →
      extract_header_from_toc l = some h ∧ (∃ r, l = h ++ r) ∧
        h.getLast? = some '】') ∧
    (∀ l h, capturePart l = none → captureChapter l = none →
      captureSection l = none → captureParen l = some h →
      extract_header_from_toc l = some h ∧
        ∃ after, parenMarker2 l = some (h, after) ∧ after ≠ [] ∧
          after.head? ≠ some '…' ∧ l = h ++ after) := by
  refine ⟨fun l h hp => ?_, fun l h hp hc => ?_, fun l h hp hc hs => ?_,
    fun l h hp hc hs hpr => ?_⟩
  · obtain ⟨hpre, hlast, -⟩ := capturePart_spec l h hp
    exact ⟨by simp [extract_header_from_toc, hp], hpre, hlast⟩
  · obtain ⟨hpre, hlast, -⟩ := captureChapter_spec l h hc
    exact ⟨by simp [extract_header_from_toc, hp, hc], hpre, hlast⟩
  · obtain ⟨hpre, hlast, -⟩ := captureSection_spec l h hs
    exact ⟨by simp [extract_header_from_toc, hp, hc, hs], hpre, hlast⟩
  · obtain ⟨after, hpm, hne, hhd, heq, -⟩ := captureParen_spec l h hpr
    exact ⟨by simp [extract_header_from_toc, hp, hc, hs, hpr],
      after, hpm, hne, hhd, heq⟩

/-- C5 (witness): a PART TOC line records the full bracketed caption; a
parenthetical TOC line records only the marker `（１）`, dropping the
caption `あいう`. -/
theorem extract_header_from_toc_spec_witness :
    extract_header_from_toc "第一部【企業情報】…1".data =
      some "第一部【企業情報】".data ∧
    extract_header_from_toc "（１）あいう…3".data = some "（１）".data :=
  ⟨(extract_header_from_toc_spec.1 "第一部【企業情報】…1".data
      "第一部【企業情報】".data (by decide)).1,
   (extract_header_from_toc_spec.2.2.2 "（１）あいう…3".data "（１）".data
      (by decide) (by decide) (by decide) (by decide)).1⟩

theorem splitOnChar_append_sep (sep : Char) (t rest : Line)
    (h : ∀ c ∈ t, c ≠ sep) :
    splitOnChar sep (t ++ sep :: rest) = t :: splitOnChar sep rest := by
  induction t with
  | nil => simp [splitOnChar]
  | cons c cs ih =>
    have hc : (c == sep) = false := by simp [h c (by simp)]
    rw [List.cons_append, splitOnChar, ih (fun x hx => h x (by simp [hx]))]
    simp [hc]

theorem splitOnChar_joinWith (m : Nat) (t : Line) (h : ∀ c ∈ t, c ≠ '|') :
    splitOnChar '|' (joinWith '|' (List.replicate (m + 1) t) ++ ['|']) =
      List.replicate (m + 1) t ++ [[]] := by
  induction m with
  | zero =>
    show splitOnChar '|' (t ++ '|' :: []) = _
    rw [splitOnChar_append_sep '|' t [] h]
    rfl
  | succ k ih =>
    have hrep : List.replicate (k + 2) t = t :: List.replicate (k + 1) t := rfl
    rw [hrep]
    have hjw : joinWith '|' (t :: List.replicate (k + 1) t) =
        t ++ '|' :: joinWith '|' (List.replicate (k + 1) t) := by
      rw [List.replicate_succ]
      rfl
    rw [hjw, List.append_assoc]
    rw [show ('|' :: joinWith '|' (List.replicate (k + 1) t)) ++ ['|'] =
      '|' :: (joinWith '|' (List.replicate (k + 1) t) ++ ['|']) from rfl]
    rw [splitOnChar_append_sep '|' t _ h, ih]
    rfl

theorem splitPipe_create_separator (n : Nat) (h : 1 ≤ n) :
    splitPipe (create_separator n) =
      [] :: (List.replicate n ['-', '-', '-'] ++ [[]]) := by
  obtain ⟨m, rfl⟩ : ∃ m, n = m + 1 := ⟨n - 1, by omega⟩
  unfold splitPipe create_separator
  simp only [splitOnChar, beq_self_eq_true, if_true, List.append_eq]
  rw [splitOnChar_joinWith m ['-', '-', '-'] (by decide)]

theorem should_skip_row_iff (cells : List Line) :
    should_skip_row cells = true ↔
      ((∃ c ∈ (cells.drop 1).dropLast, pyStrip c ≠ []) ∧
       ∀ c ∈ (cells.drop 1).dropLast,
         pyStrip c = [] ∨ pyStrip c = "当事業年度".data) := by
  unfold should_skip_row
  rw [Bool.and_eq_true]
  constructor
  · rintro ⟨h1, h2⟩
    constructor
    · by_contra hno
      push_neg at hno
      have hfil : ((cells.drop 1).dropLast.map pyStrip).filter
          (fun c => !c.isEmpty) = [] := by
        rw [List.filter_eq_nil_iff]
        intro a ha
        obtain ⟨c, hc, rfl⟩ := List.mem_map.mp ha
        simp [hno c hc]
      rw [hfil] at h1
      simp at h1
    · intro c hc
      by_cases hcs : pyStrip c = []
      · exact Or.inl hcs
      · refine Or.inr ?_
        have hmem : pyStrip c ∈ ((cells.drop 1).dropLast.map pyStrip).filter
            (fun c => !c.isEmpty) := by
          rw [List.mem_filter]
          refine ⟨List.mem_map_of_mem pyStrip hc, ?_⟩
          simp [List.isEmpty_iff, hcs]
        have := List.all_eq_true.mp h2 _ hmem
        simpa using this
  · rintro ⟨⟨c, hc, hcs⟩, hall⟩
    have hmem : pyStrip c ∈ ((cells.drop 1).dropLast.map pyStrip).filter
        (fun c => !c.isEmpty) := by
      rw [List.mem_filter]
      refine ⟨List.mem_map_of_mem pyStrip hc, ?_⟩
      simp [List.isEmpty_iff, hcs]
    constructor
    · have hne := List.ne_nil_of_mem hmem
      simp only [Bool.not_eq_true']
      cases hf : ((cells.drop 1).dropLast.map pyStrip).filter
          (fun c => !c.isEmpty) with
      | nil => exact absurd hf hne
      | cons a as => rfl
    · rw [List.all_eq_true]
      intro a ha
      obtain ⟨ha1, ha2⟩ := List.mem_filter.mp ha
      obtain ⟨c', hc', rfl⟩ := List.mem_map.mp ha1
      rcases hall c' hc' with h | h
      · rw [h] at ha2
        simp at ha2
      · simp [h]

theorem fixGo_skipping_dropWhile : ∀ (rest : List Line),
    fixGo .skipping rest =
      fixGo .skipping
        (rest.dropWhile (fun r => isPipe r && should_skip_row (splitPipe r)))
  | [] => rfl
  | r :: rs => by
    rw [List.dropWhile_cons]
    by_cases h : (isPipe r && should_skip_row (splitPipe r)) = true
    · rw [if_pos h]
      have hstep : fixGo .skipping (r :: rs) = fixGo .skipping rs := by
        simp only [fixGo, h, if_true]
      rw [hstep]
      exact fixGo_skipping_dropWhile rs
    · rw [if_neg h]

/-- C6 (amended): after a malformed table block is recognized (and the
duplicate-header guard does not fire), the source emits the level-4
caption header and the optional date line, then skips exactly the
immediately following table rows accepted by `should_skip_row` — and
`should_skip_row` accepts a row precisely when its interior cells
(`cells[1:-1]`) contain AT LEAST ONE non-empty cell and every non-empty
interior cell equals the placeholder `当事業年度`.  In particular a row
whose interior cells are all empty is NOT skipped (the original claim's
"all empty" case is wrong). -/
theorem placeholder_row_skipping
    (prev : Option Line) (l next : Line) (rest : List Line)
    (hp : isPipe l = true) (hs : isSepLine next = true)
    (hm : is_malformed_table_header (splitPipe l) = true)
    (hd : (match prev with
           | some p => pyStrip p == "#### ".data ++ pyStrip ((splitPipe l).getD 1 [])
           | none => false) = false) :
    fixGo (.normal prev) (l :: next :: rest) =
      ("#### ".data ++ pyStrip ((splitPipe l).getD 1 [])) ::
        ((extract_date_from_cells (splitPipe l)).toList ++
          fixGo .skipping
            (rest.dropWhile (fun r => isPipe r && should_skip_row (splitPipe r)))) ∧
    (∀ r ∈ rest.takeWhile (fun r => isPipe r && should_skip_row (splitPipe r)),
      isPipe r = true ∧ should_skip_row (splitPipe r) = true) ∧
    (∀ cells : List Line, should_skip_row cells = true ↔
      ((∃ c ∈ (cells.drop 1).dropLast, pyStrip c ≠ []) ∧
       ∀ c ∈ (cells.drop 1).dropLast,
         pyStrip c = [] ∨ pyStrip c = "当事業年度".data)) := by
  refine ⟨?_, ?_, should_skip_row_iff⟩
  · have hcond : (isPipe l && isSepLine next) = true := by simp [hp, hs]
    simp only [fixGo, hcond, if_true, hm, hd, Bool.false_eq_true, if_false]
    rw [← fixGo_skipping_dropWhile rest]
  · intro r hr
    have h := List.mem_takeWhile_imp hr
    rw [Bool.and_eq_true] at h
    exact h

/-- C6 (witness): a concrete malformed block followed by one placeholder
row (`|当事業年度|当事業年度|`, skipped) and the true header row. -/
theorem placeholder_row_skipping_witness :
    fixGo (.normal none) ("|（２）A|Col2|B|".data :: "|---|---|".data ::
        ["|当事業年度|当事業年度|".data, "|h1|h2|".data]) =
      ["#### （２）A".data, "|h1|h2|".data] :=
  ((placeholder_row_skipping none "|（２）A|Col2|B|".data "|---|---|".data
      ["|当事業年度|当事業年度|".data, "|h1|h2|".data]
      (by decide) (by decide) (by decide) (by decide)).1).trans (by decide)

/-- C7 (amended): after the placeholder skipping, the next table row is
emitted unchanged as the true header row; a freshly synthesized separator
follows it ONLY when at least one further table row follows the header
row (the source guards the separator behind `lines[i].startswith("|")`),
and that separator's column count is the header row's interior field
count (`len(row.split("|")) - 2`; `create_separator n` produces exactly
`n` interior `---` fields).  Scenario B itself is reproduced verbatim. -/
theorem true_header_and_separator :
    (∀ hrow : Line, isPipe hrow = true →
      should_skip_row (splitPipe hrow) = false →
      fixGo .skipping [hrow] = [hrow]) ∧
    (∀ (hrow t0 : Line) (t : List Line), isPipe hrow = true →
      should_skip_row (splitPipe hrow) = false → isPipe t0 = true →
      fixGo .skipping (hrow :: t0 :: t) =
        hrow :: create_separator ((splitPipe hrow).length - 2) ::
          fixGo .inTable (t0 :: t)) ∧
    (∀ (hrow t0 : Line) (t : List Line), isPipe hrow = true →
      should_skip_row (splitPipe hrow) = false → isPipe t0 = false →
      fixGo .skipping (hrow :: t0 :: t) = hrow :: fixGo .inTable (t0 :: t)) ∧
    (∀ n : Nat, 1 ≤ n →
      ((splitPipe (create_separator n)).drop 1).dropLast =
        List.replicate n ['-', '-', '-']) ∧
    fix_malformed_tables
        ["|（２）提出会社の状況|Col2|Col3|2024年３月31日現在|".data,
         "|---|---|---|---|".data, "|氏名|役職|住所|".data,
         "|山田|部長|東京|".data] =
      ["#### （２）提出会社の状況".data, "2024年３月31日現在".data,
       "|氏名|役職|住所|".data, "|---|---|---|".data,
       "|山田|部長|東京|".data] := by
  refine ⟨fun hrow hp hsk => ?_, fun hrow t0 t hp hsk ht0 => ?_,
    fun hrow t0 t hp hsk ht0 => ?_, fun n hn => ?_, by decide⟩
  · simp [fixGo, hp, hsk]
  · simp [fixGo, hp, hsk, ht0]
  · simp [fixGo, hp, hsk, ht0]
  · rw [splitPipe_create_separator n hn]
    simp

/-- C7 (witness): with a data row after the header row the synthesized
three-column separator appears; the header row `|a|b|c|` has interior
field count `3`. -/
theorem true_header_and_separator_witness :
    fixGo .skipping ["|a|b|c|".data, "|x|y|".data] =
      ["|a|b|c|".data, "|---|---|---|".data, "|x|y|".data] :=
  (true_header_and_separator.2.1 "|a|b|c|".data "|x|y|".data []
      (by decide) (by decide) (by decide)).trans (by decide)

theorem fix_id : ∀ (prev : Option Line) (ls : List Line),
    (∀ l ∈ ls, is_malformed_table_header (splitPipe l) = false) →
    fixGo (.normal prev) ls = ls
  | _, [], _ => rfl
  | _, [_], _ => rfl
  | prev, l :: next :: rest, H => by
    have hml : is_malformed_table_header (splitPipe l) = false := H l (by simp)
    have htail := fix_id (some l) (next :: rest)
      (fun x hx => H x (List.mem_cons_of_mem l hx))
    simp only [fixGo]
    by_cases h1 : (isPipe l && isSepLine next) = true
    · simp only [h1, if_true, hml, Bool.false_eq_true, if_false]
      rw [htail]
    · rw [eq_false_of_ne_true h1]
      simp only [Bool.false_eq_true, if_false]
      rw [htail]

theorem dropPre_subset : ∀ (ls : List Line) (l : Line), l ∈ dropPre ls → l ∈ ls
  | [], l => by simp [dropPre]
  | x :: ls, l => by
    simp only [dropPre]
    by_cases h1 : contentTrigger x = true
    · simp [h1]
    · rw [eq_false_of_ne_true h1]
      simp only [Bool.false_eq_true, if_false]
      by_cases h2 : is_toc_entry x = true
      · simp only [h2, if_true]
        intro hm
        exact List.mem_cons_of_mem x (dropPre_subset ls l hm)
      · rw [eq_false_of_ne_true h2]
        simp only [Bool.false_eq_true, if_false, List.mem_cons]
        rintro (rfl | hm)
        · exact Or.inl rfl
        · exact Or.inr (dropPre_subset ls l hm)

theorem dropPre_idem : ∀ ls : List Line, dropPre (dropPre ls) = dropPre ls
  | [] => rfl
  | x :: ls => by
    simp only [dropPre]
    by_cases h1 : contentTrigger x = true
    · simp [dropPre, h1]
    · rw [eq_false_of_ne_true h1]
      simp only [Bool.false_eq_true, if_false]
      by_cases h2 : is_toc_entry x = true
      · simp only [h2, if_true]
        exact dropPre_idem ls
      · rw [eq_false_of_ne_true h2]
        simp only [Bool.false_eq_true, if_false, dropPre]
        rw [eq_false_of_ne_true h1]
        simp only [Bool.false_eq_true, if_false]
        rw [eq_false_of_ne_true h2]
        simp only [Bool.false_eq_true, if_false]
        rw [dropPre_idem ls]

theorem segGo_post : ∀ (ls : List Line) (toc : List Line) (acc : List Line),
    (∀ l ∈ ls, is_header_line l toc = none) → acc ≠ [] →
    segGo toc true acc ls = acc ++ ls
  | [], _, acc, _, _ => by simp [segGo]
  | l :: ls, toc, acc, H, hacc => by
    have hihl : is_header_line l toc = none := H l (by simp)
    have haccE : acc.isEmpty = false := by
      revert hacc; cases acc <;> simp
    simp only [segGo, Bool.true_or, Bool.not_true, Bool.false_eq_true, if_false,
      haccE, Bool.and_false, hihl]
    rw [segGo_post ls toc (acc ++ [l]) (fun x hx => H x (List.mem_cons_of_mem l hx))
      (by simp)]
    simp

theorem segGo_pre : ∀ (ls : List Line) (toc : List Line) (acc : List Line),
    (∀ h ∈ toc, shapeMatchB h = true) →
    (∀ l ∈ ls, shapeMatchB (pyStrip l) = false) →
    segGo toc false acc ls = acc ++ dropPre ls
  | [], _, acc, _, _ => by simp [segGo, dropPre]
  | l :: ls, toc, acc, htoc, H => by
    have hfree : shapeMatchB (pyStrip l) = false := H l (by simp)
    have hpart : matchPart (pyStrip l) = false := by
      have h4 := hfree
      unfold shapeMatchB at h4
      simp only [Bool.or_eq_false_iff] at h4
      exact h4.1.1.1
    have htail : ∀ x ∈ ls, shapeMatchB (pyStrip x) = false :=
      fun x hx => H x (List.mem_cons_of_mem l hx)
    have hihl : is_header_line l toc = none := is_header_line_none l toc htoc hfree
    simp only [segGo, dropPre, Bool.false_or, contentTrigger, hpart, Bool.or_false]
    by_cases h1 : (pyStrip l == "【表紙】".data) = true
    · have hstrip : pyStrip l = "【表紙】".data := by simpa using h1
      have htitle : matchTitle (pyStrip l) = false := by
        rw [hstrip]; decide
      simp only [h1, if_true, Bool.not_true, Bool.false_eq_true, if_false,
        htitle, Bool.false_and, hihl]
      rw [segGo_post ls toc (acc ++ [l])
        (fun x hx => is_header_line_none x toc htoc (htail x hx)) (by simp)]
      simp
    · rw [eq_false_of_ne_true h1]
      simp only [Bool.not_false, if_true, Bool.false_eq_true, if_false]
      by_cases h2 : is_toc_entry l = true
      · simp only [h2, if_true]
        exact segGo_pre ls toc acc htoc htail
      · rw [eq_false_of_ne_true h2]
        simp only [Bool.false_eq_true, if_false]
        rw [segGo_pre ls toc (acc ++ [l]) htoc htail]
        simp

theorem normalizeCore_clean (ls : List Line)
    (h1 : ∀ l ∈ ls, shapeMatchB (pyStrip l) = false)
    (h2 : ∀ l ∈ ls, is_malformed_table_header (splitPipe l) = false) :
    normalizeCore ls = dropPre ls := by
  unfold normalizeCore fix_malformed_tables
  rw [segGo_pre ls (extract_toc_headers ls) []
    (fun h hm => toc_headers_shape ls h hm) h1]
  rw [List.nil_append]
  exact fix_id none (dropPre ls) (fun l hl => h2 l (dropPre_subset ls l hl))

/-- C2 (amended): idempotence of `normalize` on clean documents.  On a
document none of whose stripped lines bare-matches any of the four header
shapes (all headers already carry their `#` markers) and none of whose
rows is a malformed table-header row, `normalize` only drops the
dotted-leader TOC-entry lines that precede the content boundary, and a
second run is the identity: `normalize (normalize ls) = normalize ls`.
The unqualified claim is false (see the counterexample): a document can
satisfy "no promotable line and no malformed artifact" in the
operational sense and still not be idempotent, because dropping a TOC
line can shift the end-of-TOC boundary of the second run and promote a
line the first run left alone. -/
theorem normalize_idempotent_of_clean (ls : List Line)
    (h1 : ∀ l ∈ ls, shapeMatchB (pyStrip l) = false)
    (h2 : ∀ l ∈ ls, is_malformed_table_header (splitPipe l) = false) :
    normalizeCore (normalizeCore ls) = normalizeCore ls := by
  rw [normalizeCore_clean ls h1 h2]
  rw [normalizeCore_clean (dropPre ls)
    (fun l hl => h1 l (dropPre_subset ls l hl))
    (fun l hl => h2 l (dropPre_subset ls l hl))]
  exact dropPre_idem ls

/-- C2 (counterexample): the claim as stated is false.  This document
contains no malformed-table artifact (no line even starts with `|`) and
no line that the first pass promotes (`is_header_line` returns `none` on
every line against the first pass's TOC headers — its headers are
"already promoted" in the operational sense), yet
`normalize (normalize x)` differs from `normalize x`: the first pass
drops the dotted line `監査報告書…45`, which removes the end-of-TOC
token, so the second pass's TOC scan reaches `（１）あい`, records the
marker `（１）`, and then promotes the line `（１）` to `#### （１）`. -/
theorem normalize_not_idempotent :
    (∀ l ∈ (["目次".data, "監査報告書…45".data, "【表紙】".data,
        "（１）あい".data, "（１）".data] : List Line),
      is_header_line l (extract_toc_headers
        ["目次".data, "監査報告書…45".data, "【表紙】".data,
         "（１）あい".data, "（１）".data]) = none) ∧
    (∀ l ∈ (["目次".data, "監査報告書…45".data, "【表紙】".data,
        "（１）あい".data, "（１）".data] : List Line), isPipe l = false) ∧
    normalizeCore (normalizeCore
        ["目次".data, "監査報告書…45".data, "【表紙】".data,
         "（１）あい".data, "（１）".data]) ≠
      normalizeCore ["目次".data, "監査報告書…45".data, "【表紙】".data,
        "（１）あい".data, "（１）".data] := by
  refine ⟨by decide, by decide, by decide⟩

/-- C2 (witness): Scenario C.  Scenario B's repaired output is clean in
the amended sense, and re-running `normalize` on it is byte-identical (no
duplicate `#### ` header). -/
theorem normalize_idempotent_witness :
    (∀ l ∈ (["#### （２）提出会社の状況".data, "2024年３月31日現在".data,
        "|氏名|役職|住所|".data, "|---|---|---|".data, "|山田|部長|東京|".data] :
        List Line), shapeMatchB (pyStrip l) = false) ∧
    normalizeCore (normalizeCore
        ["#### （２）提出会社の状況".data, "2024年３月31日現在".data,
         "|氏名|役職|住所|".data, "|---|---|---|".data,
         "|山田|部長|東京|".data]) =
      normalizeCore ["#### （２）提出会社の状況".data, "2024年３月31日現在".data,
        "|氏名|役職|住所|".data, "|---|---|---|".data, "|山田|部長|東京|".data] :=
  ⟨by decide,
   normalize_idempotent_of_clean _ (by decide) (by decide)⟩

theorem splitGo_append : ∀ (xs ys : List Line) (st : SplitState),
    splitGo st (xs ++ ys) = splitGo (splitGo st xs) ys
  | [], _, _ => rfl
  | x :: xs, ys, st => by
    simp only [List.cons_append, splitGo]
    exact splitGo_append xs ys (splitStep st x)

theorem dictGet_dictSet_self : ∀ (d : List (Line × Line)) (k v : Line),
    dictGet (dictSet d k v) k = some v
  | [], k, v => by simp [dictSet, dictGet, List.find?]
  | (a, b) :: d, k, v => by
    simp only [dictSet]
    by_cases h : (a == k) = true
    · have ha : a = k := by simpa using h
      subst ha
      simp [dictGet, List.find?]
    · rw [eq_false_of_ne_true h]
      simp only [Bool.false_eq_true, if_false]
      have ih := dictGet_dictSet_self d k v
      simp only [dictGet] at ih ⊢
      rw [List.find?_cons_of_neg _ (by simpa using h)]
      exact ih

theorem dictGet_dictSet_other : ∀ (d : List (Line × Line)) (k v k' : Line),
    k' ≠ k → dictGet (dictSet d k v) k' = dictGet d k'
  | [], k, v, k', hne => by
    have : (k == k') = false := by
      simp only [beq_eq_false_iff_ne]
      exact fun hx => hne hx.symm
    simp [dictSet, dictGet, List.find?, this]
  | (a, b) :: d, k, v, k', hne => by
    simp only [dictSet]
    by_cases h : (a == k) = true
    · have ha : a = k := by simpa using h
      subst ha
      have hfa : (a == k') = false := by
        simp only [beq_eq_false_iff_ne]
        exact fun hx => hne hx.symm
      rw [if_pos h]
      simp only [dictGet]
      rw [List.find?_cons_of_neg _ (by simp [hfa]),
        List.find?_cons_of_neg _ (by simp [hfa])]
    · rw [eq_false_of_ne_true h]
      simp only [Bool.false_eq_true, if_false]
      by_cases hak : (a == k') = true
      · simp only [dictGet]
        rw [List.find?_cons_of_pos _ (by simp [hak]),
          List.find?_cons_of_pos _ (by simp [hak])]
      · have ih := dictGet_dictSet_other d k v k' hne
        simp only [dictGet] at ih ⊢
        rw [List.find?_cons_of_neg _ (by simp [hak]),
          List.find?_cons_of_neg _ (by simp [hak])]
        exact ih

theorem saveChunk_lookup (st : SplitState) (h target : Line)
    (hget : dictGet st.chunks h = some target)
    (hcur : ∀ t, st.cur = some t → t ≠ h) :
    dictGet (saveChunk st) h = some target := by
  unfold saveChunk
  by_cases htr : pyTruthy st.cur = true
  · rw [if_pos htr]
    match hc : st.cur with
    | none => rw [hc] at htr; simp [pyTruthy] at htr
    | some t =>
      have hne : t ≠ h := hcur t hc
      simp only [Option.getD_some]
      rw [dictGet_dictSet_other st.chunks t (pyStrip (joinLines st.content)) h
        (fun hx => hne hx.symm)]
      exact hget
  · rw [if_neg htr]
    exact hget

theorem splitGo_lookup_stable :
    ∀ (rest : List Line) (st : SplitState) (h target : Line),
    dictGet st.chunks h = some target →
    (∀ t, st.cur = some t → t ≠ h) →
    (∀ l ∈ rest, l.head? = some '#' → lineHeaderText l ≠ h) →
    dictGet (saveChunk (splitGo st rest)) h = some target
  | [], st, h, target, hget, hcur, _ => by
    simp only [splitGo]
    exact saveChunk_lookup st h target hget hcur
  | l :: rest, st, h, target, hget, hcur, hh => by
    simp only [splitGo, splitStep]
    by_cases hl : (l.head? == some '#') = true
    · simp only [hl, if_true]
      apply splitGo_lookup_stable rest _ h target
      · exact saveChunk_lookup st h target hget hcur
      · intro t ht
        simp only [Option.some_inj] at ht
        subst ht
        exact hh l (by simp) (by simpa using hl)
      · exact fun x hx => hh x (List.mem_cons_of_mem l hx)
    · rw [eq_false_of_ne_true hl]
      simp only [Bool.false_eq_true, if_false]
      by_cases htr : pyTruthy st.cur = true
      · rw [if_pos htr]
        exact splitGo_lookup_stable rest _ h target hget hcur
          (fun x hx => hh x (List.mem_cons_of_mem l hx))
      · rw [if_neg htr]
        exact splitGo_lookup_stable rest st h target hget hcur
          (fun x hx => hh x (List.mem_cons_of_mem l hx))

theorem splitGo_body : ∀ (body : List Line) (st : SplitState),
    (∀ l ∈ body, l.head? ≠ some '#') → pyTruthy st.cur = true →
    splitGo st body = ⟨st.cur, st.content ++ body, st.chunks⟩
  | [], st, _, _ => by
    cases st
    simp [splitGo]
  | l :: body, st, H, htr => by
    have hl' : (l.head? == some '#') = false := by
      simpa using H l (by simp)
    simp only [splitGo, splitStep, hl', Bool.false_eq_true, if_false, htr,
      if_true]
    rw [splitGo_body body ⟨st.cur, st.content ++ [l], st.chunks⟩
      (fun x hx => H x (List.mem_cons_of_mem l hx)) htr]
    simp

/-- C9: last occurrence wins in `split_by_headers`.  If the (nonempty)
header text `h` occurs on an earlier header line in `pre` and again on
the header line `hl2`, whose body is `body` (the lines up to the next
header line, the start of `rest`), and no header line of `rest` carries
the text `h` again (so `hl2` is the last occurrence), then the returned
mapping assigns `h` exactly the body of that last occurrence —
`"\n".join(body).strip()` — whatever earlier bodies were recorded. -/
theorem split_last_occurrence_wins
    (pre body rest : List Line) (hl2 hdr : Line)
    (hne : hdr ≠ [])
    (hhl2 : hl2.head? = some '#') (hh2 : lineHeaderText hl2 = hdr)
    (hdup : ∃ hl1 ∈ pre, hl1.head? = some '#' ∧ lineHeaderText hl1 = hdr)
    (hbody : ∀ l ∈ body, l.head? ≠ some '#')
    (hrest : rest = [] ∨ ∃ r0 rest2, rest = r0 :: rest2 ∧ r0.head? = some '#')
    (hrestH : ∀ l ∈ rest, l.head? = some '#' → lineHeaderText l ≠ hdr) :
    dictGet (split_by_headers (pre ++ hl2 :: (body ++ rest))) hdr =
      some (pyStrip (joinLines body)) := by
  unfold split_by_headers
  rw [splitGo_append pre (hl2 :: (body ++ rest)) ⟨none, [], []⟩]
  set st := splitGo ⟨none, [], []⟩ pre with hst
  have hstep : splitStep st hl2 = ⟨some hdr, [], saveChunk st⟩ := by
    unfold splitStep
    rw [if_pos (by simp [hhl2])]
    rw [show pyStrip (hl2.dropWhile (fun c => c == '#')) = hdr from hh2]
  show dictGet (saveChunk (splitGo (splitStep st hl2) (body ++ rest))) hdr = _
  rw [hstep, splitGo_append body rest]
  rw [splitGo_body body ⟨some hdr, [], saveChunk st⟩ hbody
    (by revert hne; cases hdr <;> simp [pyTruthy])]
  rcases hrest with rfl | ⟨r0, rest2, rfl, hr0⟩
  · simp only [splitGo, saveChunk, List.nil_append]
    rw [if_pos (by revert hne; cases hdr <;> simp [pyTruthy])]
    simp only [Option.getD_some]
    exact dictGet_dictSet_self (saveChunk st) hdr (pyStrip (joinLines body))
  · simp only [splitGo, splitStep]
    rw [if_pos (by simp [hr0])]
    apply splitGo_lookup_stable rest2 _ hdr (pyStrip (joinLines body))
    · show dictGet (saveChunk ⟨some hdr, [] ++ body, saveChunk st⟩) hdr = _
      unfold saveChunk
      rw [if_pos (by revert hne; cases hdr <;> simp [pyTruthy])]
      simp only [Option.getD_some, List.nil_append]
      exact dictGet_dictSet_self (saveChunk st) hdr (pyStrip (joinLines body))
    · intro t ht
      simp only [Option.some_inj] at ht
      subst ht
      exact hrestH r0 (by simp) hr0
    · exact fun x hx => hrestH x (List.mem_cons_of_mem r0 hx)

/-- C9 (witness): the header `A` occurs twice in
`# A / x / # A / z`; the mapping holds the second body `z`. -/
theorem split_last_occurrence_wins_witness :
    dictGet (split_by_headers ["# A".data, "x".data, "# A".data, "z".data])
      "A".data = some "z".data :=
  (split_last_occurrence_wins ["# A".data, "x".data] ["z".data] [] "# A".data
    "A".data (by decide) (by decide) (by decide)
    ⟨"# A".data, by decide, by decide, by decide⟩
    (by decide) (Or.inl rfl) (by decide)).trans (by decide)

theorem lineLevel_none_not_hash (l : Line)
    (hl : (l.head? == some '#') = false) : lineLevel l = none := by
  unfold lineLevel
  rw [hl]
  rfl

theorem lineLevel_none_bad (l : Line) (hl : (l.head? == some '#') = true)
    (hn : (1 ≤ lineHashCount l && lineHashCount l ≤ 4) = false) :
    lineLevel l = none := by
  unfold lineLevel
  rw [hl]
  simp only [if_true]
  rw [hn]
  rfl

theorem lineLevel_some_good (l : Line) (hl : (l.head? == some '#') = true)
    (hn : (1 ≤ lineHashCount l && lineHashCount l ≤ 4) = true) :
    lineLevel l = some (lineHashCount l) := by
  unfold lineLevel
  rw [hl]
  simp only [if_true]
  rw [hn]
  rfl

theorem hierEnsure_mem (d : List (Line × List Line)) (k : Line)
    (pr : Line × List Line) (h : pr ∈ hierEnsure d k) :
    pr ∈ d ∨ pr = (k, []) := by
  unfold hierEnsure at h
  split at h
  · exact Or.inl h
  · rcases List.mem_append.mp h with h1 | h1
    · exact Or.inl h1
    · simp only [List.mem_singleton] at h1
      exact Or.inr h1

theorem hierAppend_mem : ∀ (d : List (Line × List Line)) (k c : Line)
    (pr : Line × List Line), pr ∈ hierAppend d k c →
    pr ∈ d ∨ ∃ vs, (k, vs) ∈ d ∧ pr = (k, vs ++ [c])
  | [], _, _, _, h => by simp [hierAppend] at h
  | (a, bs) :: d, k, c, pr, h => by
    simp only [hierAppend] at h
    split at h
    next heq =>
      have ha : a = k := by simpa using heq
      subst ha
      rcases List.mem_cons.mp h with rfl | h1
      · exact Or.inr ⟨bs, List.mem_cons_self _ _, rfl⟩
      · exact Or.inl (List.mem_cons_of_mem _ h1)
    next heq =>
      rcases List.mem_cons.mp h with rfl | h1
      · exact Or.inl (List.mem_cons_self _ _)
      · rcases hierAppend_mem d k c pr h1 with h2 | ⟨vs, hm, he⟩
        · exact Or.inl (List.mem_cons_of_mem _ h2)
        · exact Or.inr ⟨vs, List.mem_cons_of_mem _ hm, he⟩

theorem TrackOk_step (ls : List Line) (m lv : Nat) (t : Line) (r : Line)
    (h : TrackOk ls m lv t) (hr : ls[m]? = some r)
    (hlev : ∀ Lk, lineLevel r = some Lk → lv < Lk) :
    TrackOk ls (m + 1) lv t := by
  obtain ⟨j, lj, hjm, hget, hlevj, htext, hint⟩ := h
  refine ⟨j, lj, by omega, hget, hlevj, htext, ?_⟩
  intro k lk Lk hjk hkm hkget hklev
  by_cases hk : k < m
  · exact hint k lk Lk hjk hk hkget hklev
  · have hkm' : k = m := by omega
    subst hkm'
    rw [hr] at hkget
    simp only [Option.some_inj] at hkget
    subst hkget
    exact hlev Lk hklev

theorem GoodChild_mono (ls : List Line) (m : Nat) (p c : Line)
    (h : GoodChild ls m p c) : GoodChild ls (m + 1) p c := by
  obtain ⟨i, li, L, him, rest⟩ := h
  exact ⟨i, li, L, by omega, rest⟩

theorem HierInv_init (ls : List Line) :
    HierInv ls 0 ⟨fun _ => none, []⟩ := by
  constructor
  · intro lv t h
    simp at h
  · intro pr h
    simp at h

theorem HierInv_step (ls : List Line) (m : Nat) (st : HierState) (r : Line)
    (hr : ls[m]? = some r) (hinv : HierInv ls m st) :
    HierInv ls (m + 1) (hierStep st r) := by
  obtain ⟨hcur, hhier⟩ := hinv
  by_cases hl : (r.head? == some '#') = true
  · by_cases hn : (1 ≤ lineHashCount r && lineHashCount r ≤ 4) = true
    · have hlev : lineLevel r = some (lineHashCount r) := lineLevel_some_good r hl hn
      have heq : hierStep st r =
          ⟨fun k => if k == lineHashCount r then some (lineHeaderText r)
                    else if lineHashCount r < k then none else st.cur k,
           if 2 ≤ lineHashCount r then
             (match st.cur (lineHashCount r - 1) with
              | some p => hierAppend (hierEnsure st.hier (lineHeaderText r)) p
                  (lineHeaderText r)
              | none => hierEnsure st.hier (lineHeaderText r))
           else hierEnsure st.hier (lineHeaderText r)⟩ := by
        unfold hierStep
        rw [if_pos hl, if_pos hn]
      rw [heq]
      constructor
      · intro lv t' hcur'
        simp only at hcur'
        by_cases h1 : (lv == lineHashCount r) = true
        · rw [if_pos h1] at hcur'
          simp only [Option.some_inj] at hcur'
          have hlv : lv = lineHashCount r := by simpa using h1
          subst hlv
          subst hcur'
          refine ⟨m, r, by omega, hr, hlev, rfl, ?_⟩
          intro k lk Lk hjk hkm
          omega
        · rw [if_neg (by simpa using h1)] at hcur'
          by_cases h2 : lineHashCount r < lv
          · rw [if_pos h2] at hcur'
            exact absurd hcur' (by simp)
          · rw [if_neg h2] at hcur'
            have hlv : lv < lineHashCount r := by
              have : lv ≠ lineHashCount r := by simpa using h1
              omega
            refine TrackOk_step ls m lv t' r (hcur lv t' hcur') hr ?_
            intro Lk hLk
            rw [hlev] at hLk
            simp only [Option.some_inj] at hLk
            omega
      · intro pr hpr c hc
        have hEnsure : ∀ q : Line × List Line,
            q ∈ hierEnsure st.hier (lineHeaderText r) → ∀ c' ∈ q.2,
            GoodChild ls (m + 1) q.1 c' := by
          intro q hq c' hc'
          rcases hierEnsure_mem st.hier (lineHeaderText r) q hq with h3 | h3
          · exact GoodChild_mono ls m q.1 c' (hhier q h3 c' hc')
          · rw [h3] at hc'
            simp at hc'
        by_cases h2 : 2 ≤ lineHashCount r
        · rw [if_pos h2] at hpr
          match hcp : st.cur (lineHashCount r - 1) with
          | none =>
            rw [hcp] at hpr
            exact hEnsure pr hpr c hc
          | some p =>
            rw [hcp] at hpr
            rcases hierAppend_mem _ p (lineHeaderText r) pr hpr with h3 | ⟨vs, hm3, he3⟩
            · exact hEnsure pr h3 c hc
            · rw [he3] at hc ⊢
              simp only at hc ⊢
              rcases List.mem_append.mp hc with hc1 | hc1
              · exact hEnsure (p, vs) hm3 c hc1
              · simp only [List.mem_singleton] at hc1
                subst hc1
                obtain ⟨j, lj, hjm, hjget, hjlev, hjtext, hint⟩ :=
                  hcur (lineHashCount r - 1) p hcp
                refine ⟨m, r, lineHashCount r, by omega, hr, hlev, rfl,
                  j, lj, ⟨hjm, ⟨lj, hjget, hjlev⟩, ?_⟩, hjget, hjtext⟩
                intro k lk Lk hjk hkm hkget hklev
                exact hint k lk Lk hjk hkm hkget hklev
        · rw [if_neg h2] at hpr
          exact hEnsure pr hpr c hc
    · have hstep : hierStep st r = st := by
        unfold hierStep
        rw [if_pos hl, if_neg (by simpa using hn)]
      rw [hstep]
      have hlev : lineLevel r = none := lineLevel_none_bad r hl (eq_false_of_ne_true hn)
      constructor
      · intro lv t' hcur'
        refine TrackOk_step ls m lv t' r (hcur lv t' hcur') hr ?_
        intro Lk hLk
        rw [hlev] at hLk
        exact absurd hLk (by simp)
      · intro pr hpr c hc
        exact GoodChild_mono ls m pr.1 c (hhier pr hpr c hc)
  · have hstep : hierStep st r = st := by
      unfold hierStep
      rw [if_neg (by simpa using hl)]
    rw [hstep]
    have hlev : lineLevel r = none := lineLevel_none_not_hash r (eq_false_of_ne_true hl)
    constructor
    · intro lv t' hcur'
      refine TrackOk_step ls m lv t' r (hcur lv t' hcur') hr ?_
      intro Lk hLk
      rw [hlev] at hLk
      exact absurd hLk (by simp)
    · intro pr hpr c hc
      exact GoodChild_mono ls m pr.1 c (hhier pr hpr c hc)

theorem hierGo_inv : ∀ (rest ls : List Line) (m : Nat) (st : HierState),
    (∀ k, rest[k]? = ls[m + k]?) → HierInv ls m st →
    HierInv ls (m + rest.length) (hierGo st rest)
  | [], ls, m, st, _, hinv => by simpa [hierGo] using hinv
  | r :: rest, ls, m, st, hidx, hinv => by
    have hr : ls[m]? = some r := by
      have h0 := hidx 0
      simpa using h0.symm
    have hstep := HierInv_step ls m st r hr hinv
    have hidx' : ∀ k, rest[k]? = ls[m + 1 + k]? := by
      intro k
      have h1 := hidx (k + 1)
      simp only [List.getElem?_cons_succ] at h1
      rw [h1]
      congr 1
      omega
    have hrec := hierGo_inv rest ls (m + 1) (hierStep st r) hidx' hstep
    simp only [hierGo, List.length_cons]
    rw [show m + (rest.length + 1) = m + 1 + rest.length from by omega]
    exact hrec

theorem parentPos_unique (ls : List Line) (i L j j' : Nat)
    (h : PrecedingParentPos ls i L j) (h' : PrecedingParentPos ls i L j') :
    j' = j := by
  obtain ⟨hji, ⟨lj, hjget, hjlev⟩, hint⟩ := h
  obtain ⟨hji', ⟨lj', hjget', hjlev'⟩, hint'⟩ := h'
  rcases Nat.lt_trichotomy j j' with hlt | heq | hgt
  · have := hint j' lj' (L - 1) hlt hji' hjget' hjlev'
    omega
  · omega
  · have := hint' j lj (L - 1) hgt hji hjget hjlev
    omega

/-- C8: hierarchy soundness.  For every parent/child pair recorded by
`get_section_hierarchy` — a child text `c` listed under a key `pr.1` —
there is an occurrence of `c` as a header line of some level `L` (marker
count 1-4) such that exactly one position `j` before it holds a header
line of level `L - 1` with no intervening header line of level `≤ L - 1`,
and the recorded parent key is that header's text. -/
theorem hierarchy_soundness (ls : List Line) (pr : Line × List Line)
    (hpr : pr ∈ get_section_hierarchy ls) (c : Line) (hc : c ∈ pr.2) :
    ∃ i li L, ls[i]? = some li ∧ lineLevel li = some L ∧
      lineHeaderText li = c ∧
      ∃ j, PrecedingParentPos ls i L j ∧
        (∀ j', PrecedingParentPos ls i L j' → j' = j) ∧
        ∃ lj, ls[j]? = some lj ∧ lineHeaderText lj = pr.1 := by
  have hinv := hierGo_inv ls ls 0 ⟨fun _ => none, []⟩ (fun k => by simp)
    (HierInv_init ls)
  obtain ⟨-, h2⟩ := hinv
  unfold get_section_hierarchy at hpr
  have hgc := h2 pr hpr c hc
  obtain ⟨i, li, L, -, hget, hlev, htext, j, lj, hpp, hjget, hjtext⟩ := hgc
  exact ⟨i, li, L, hget, hlev, htext, j, hpp,
    fun j' hj' => parentPos_unique ls i L j j' hpp hj', lj, hjget, hjtext⟩

/-- C8 (witness): in `# A / ## B / ### C / ## D`, the child `D` of `A`
has the level-1 line at position 0 as its unique preceding parent (the
level-2 and level-3 lines in between are deeper). -/
theorem hierarchy_soundness_witness :
    ∃ i li L,
      (["# A".data, "## B".data, "### C".data, "## D".data] : List Line)[i]? =
        some li ∧
      lineLevel li = some L ∧ lineHeaderText li = "D".data ∧
      ∃ j, PrecedingParentPos
          ["# A".data, "## B".data, "### C".data, "## D".data] i L j ∧
        (∀ j', PrecedingParentPos
            ["# A".data, "## B".data, "### C".data, "## D".data] i L j' →
          j' = j) ∧
        ∃ lj, (["# A".data, "## B".data, "### C".data, "## D".data] :
            List Line)[j]? = some lj ∧
          lineHeaderText lj = "A".data :=
  hierarchy_soundness ["# A".data, "## B".data, "### C".data, "## D".data]
    ("A".data, ["B".data, "D".data]) (by decide) "D".data (by decide)
end Yuho
